import Mathlib

/-
  Shallow embedding of test/e2e/lib/topology2qemuopts.py: a compiler from a
  JSON description of a NUMA/CXL machine topology to Qemu command line
  parameters.  Python dictionaries for NUMA group entries are modelled as a
  structure of optional fields (one per documented key) plus a list of
  undocumented key names; Python exceptions are modelled with Except String;
  Python integers are Lean Int (floor division // is Int.fdiv).
-/

namespace T2Q

/-- Constant DEFAULT_DIST from the source. -/
def DEFAULT_DIST : Int := 21

/-- Constant DEFAULT_DIST_SAME_PACKAGE from the source. -/
def DEFAULT_DIST_SAME_PACKAGE : Int := 21

/-- Constant DEFAULT_DIST_SAME_DIE from the source. -/
def DEFAULT_DIST_SAME_DIE : Int := 11

/-- Constant DEFAULT_DIST_SAME_NODE from the source. -/
def DEFAULT_DIST_SAME_NODE : Int := 10

/-- Helper for pythonInt: consume decimal digits where a single underscore may
    stand between two digits (as Python int() accepts).  The accumulator holds
    the digits seen so far in reverse. -/
def pyDigitsAux : List Char → List Char → Option (List Char)
  | [], acc => some acc.reverse
  | '_' :: c :: rest, acc =>
      if c.isDigit then pyDigitsAux rest (c :: acc) else none
  | c :: rest, acc =>
      if c.isDigit then pyDigitsAux rest (c :: acc) else none

/-- Numeric value of a list of decimal digits. -/
def pyDigitsVal (l : List Char) : Int :=
  l.foldl (fun acc c => acc * 10 + ((c.toNat - '0'.toNat : Nat) : Int)) 0

/-- Parse a nonempty digit run (first char must be a digit, underscores only
    between digits). -/
def pyParseDigits : List Char → Option Int
  | [] => none
  | c :: rest =>
      if c.isDigit then (pyDigitsAux rest [c]).map pyDigitsVal else none

/-- Model of the Python builtin int() applied to a string: optional
    surrounding whitespace, an optional sign, then decimal digits with single
    underscores allowed between digits.  (Non-ASCII digits are not
    modelled.)  Returns none where Python raises ValueError. -/
def pythonInt (s : String) : Option Int :=
  let cs := ((s.toList.dropWhile Char.isWhitespace).reverse.dropWhile
      Char.isWhitespace).reverse
  match cs with
  | '+' :: rest => pyParseDigits rest
  | '-' :: rest => (pyParseDigits rest).map (fun v => -v)
  | rest => pyParseDigits rest

/-- Lowercase conversion (the Python str.lower), over the character list so
    that it evaluates by kernel reduction. -/
def strToLower (s : String) : String := String.mk (s.toList.map Char.toLower)

/-- Suffix test (the Python str.endswith). -/
def strEndsWith (s suffix : String) : Bool := suffix.toList.isSuffixOf s.toList

/-- Prefix test (the Python str.startswith). -/
def strStartsWith (s pre : String) : Bool := pre.toList.isPrefixOf s.toList

/-- Search for a pattern anywhere in a character list. -/
def subSearch (sub : List Char) : List Char → Bool
  | [] => sub.isEmpty
  | c :: rest => sub.isPrefixOf (c :: rest) || subSearch sub rest

/-- Substring membership test (the Python expression sub in s). -/
def containsSub (s sub : String) : Bool := subSearch sub.toList s.toList

/-- Function siadd from the source: add two sizes given in gigabytes,
    raising ValueError (here: Except.error) otherwise. -/
def siadd (s1 s2 : String) : Except String String :=
  if strEndsWith (strToLower s1) "g" && strEndsWith (strToLower s2) "g" then
    match pythonInt (s1.dropRight 1), pythonInt (s2.dropRight 1) with
    | some a, some b => .ok (toString (a + b) ++ "G")
    | _, _ => .error "invalid literal for int"
  else .error "supports only sizes in gigabytes, example: 2G"

/-- Function sisub from the source: subtract sizes in gigabytes. -/
def sisub (s1 s2 : String) : Except String String :=
  if strEndsWith (strToLower s1) "g" && strEndsWith (strToLower s2) "g" then
    match pythonInt (s1.dropRight 1), pythonInt (s2.dropRight 1) with
    | some a, some b => .ok (toString (a - b) ++ "G")
    | _, _ => .error "invalid literal for int"
  else .error "supports only sizes in gigabytes, example: 2G"

/-- A CXL device dictionary: the documented keys are "mem", "present" and
    "switch" (a device entry may carry any subset of them; the code
    dispatches on which keys are present). -/
inductive CxlDevice where
  | mk (mem : Option String) (present : Option Bool)
      (sw : Option (List CxlDevice))
deriving Repr

/-- Value of the mem key of a CXL device dictionary. -/
def CxlDevice.mem : CxlDevice → Option String
  | .mk m _ _ => m

/-- Value of the present key of a CXL device dictionary. -/
def CxlDevice.present : CxlDevice → Option Bool
  | .mk _ p _ => p

/-- Value of the switch key of a CXL device dictionary. -/
def CxlDevice.sw : CxlDevice → Option (List CxlDevice)
  | .mk _ _ s => s

/-- One entry of the input list: a dictionary whose documented keys are
    modelled as optional fields; otherKeys holds the names of any keys
    outside the documented set (the values of such keys are never read by
    the code, only their presence matters, in validate). -/
structure NumaSpec where
  mem : Option String := none
  nvmem : Option String := none
  dimm : Option String := none
  cores : Option Int := none
  threads : Option Int := none
  nodes : Option Int := none
  dies : Option Int := none
  packages : Option Int := none
  cpusPresent : Option Int := none
  nodeDist : Option (List (Int × Int)) := none
  distAll : Option (List (List Int)) := none
  distSameDie : Option Int := none
  distSamePackage : Option Int := none
  distOtherPackage : Option Int := none
  cxl : Option (List (List CxlDevice)) := none
  otherKeys : List String := []
deriving Repr

/-- Does an Except-valued computation succeed? -/
def isOk {ε α : Type} (e : Except ε α) : Bool :=
  match e with
  | .ok _ => true
  | .error _ => false

/-- Acceptance test of one mem or nvmem value: either the literal "0" or a
    string the gigabyte size adder can handle (the source runs
    siadd(val, "0G")). -/
def sizeValueOK (v : String) : Bool := v = "0" || isOk (siadd v "0G")

/-- Acceptance of an optional mem or nvmem entry. -/
def sizeFieldOK : Option String → Bool
  | none => true
  | some v => sizeValueOK v

/-- Check of one entry performed by validate: unknown keys, the mem and
    nvmem size format (via siadd with "0G"), the integer range keys, and
    the threads-without-cores consistency rule. -/
def checkSpec (s : NumaSpec) : Except String Unit :=
  if s.otherKeys ≠ [] then .error "invalid name in node"
  else if ¬ sizeFieldOK s.mem then
    .error "invalid mem in node, expected string like 2G"
  else if ¬ sizeFieldOK s.nvmem then
    .error "invalid nvmem in node, expected string like 2G"
  else if s.cores.isSome ∧ ¬ (s.cores.getD 0 ≥ 0) then
    .error "invalid cores in node, expected integer >= 0"
  else if s.threads.isSome ∧ ¬ (s.threads.getD 2 > 0) then
    .error "invalid threads in node, expected integer > 0"
  else if s.nodes.isSome ∧ ¬ (s.nodes.getD 1 > 0) then
    .error "invalid nodes in node, expected integer > 0"
  else if s.dies.isSome ∧ ¬ (s.dies.getD 1 > 0) then
    .error "invalid dies in node, expected integer > 0"
  else if s.packages.isSome ∧ ¬ (s.packages.getD 1 > 0) then
    .error "invalid packages in node, expected integer > 0"
  else if s.cpusPresent.isSome ∧ ¬ (s.cpusPresent.getD 0 ≥ 0) then
    .error "invalid cpus-present in node, expected integer >= 0"
  else if s.threads.isSome ∧ s.cores.getD 0 = 0 then
    .error "threads set but cores is 0 in node"
  else .ok ()

/-- Function validate from the source: run checkSpec over every entry of the
    input list, stopping at the first failure. -/
def validate : List NumaSpec → Except String Unit
  | [] => .ok ()
  | s :: rest =>
      match checkSpec s with
      | .error e => .error e
      | .ok _ => validate rest

/-- The nested dictionary dist_dict of the source, as a function: keys that
    are absent map to none. -/
def DD := Nat → Nat → Option Int

/-- Write one entry of the nested distance dictionary. -/
def ddWrite (dd : DD) (a b : Nat) (v : Int) : DD :=
  fun i j => if i = a ∧ j = b then some v else dd i j

/-- Repeat a state transformation n times (a Python for loop whose body does
    not use the loop variable). -/
def natRepeat {σ : Type} (f : σ → σ) : Nat → σ → σ
  | 0, st => st
  | n + 1, st => natRepeat f n (f st)

/-- Last-wins lookup in an association list, the model of a Python dict
    comprehension built from string keys parsed with int(). -/
def dictLookup (l : List (Int × Int)) (k : Int) : Option Int :=
  l.foldl (fun acc p => if p.1 = k then some p.2 else acc) none

/-- The local state of the first pass of the dists function: running node
    and socket counters, the effective default distances, the last seen
    dist-all matrix, per-node (package, die) coordinates and per-node
    node-dist override maps. -/
structure Pass1State where
  sourcenode : Int := -1
  lastsocket : Int := -1
  distSameDie : Int := DEFAULT_DIST_SAME_DIE
  distSamePackage : Int := DEFAULT_DIST_SAME_PACKAGE
  distOtherPackage : Int := DEFAULT_DIST
  nodePackageDie : Nat → Option (Int × Nat) := fun _ => none
  distMatrix : Option (List (List Int)) := none
  nodeNodeDist : Nat → Option (List (Int × Int)) := fun _ => none
  lastnodeInGroup : Int := -1

/-- Allocate one node in the first pass of dists: bump sourcenode and record
    its (package, die) coordinates. -/
def pass1Node (die : Nat) (st : Pass1State) : Pass1State :=
  let sn := st.sourcenode + 1
  { st with
      sourcenode := sn,
      nodePackageDie := fun k =>
        if k = sn.toNat then some (st.lastsocket, die) else st.nodePackageDie k }

/-- Process one group in the first pass of dists: create the
    packages x dies x nodes nodes, then record the distance keys.  The
    source reads the (invalid, dead) key "dist" into an unused local here;
    the documented key "dist-other-package" is never read, so
    distOtherPackage always keeps its default. -/
def pass1Group (st : Pass1State) (spec : NumaSpec) : Pass1State :=
  let nodecount := spec.nodes.getD 1
  let diecount := spec.dies.getD 1
  let packagecount := spec.packages.getD 1
  let firstNode := st.sourcenode + 1
  let st := natRepeat (fun st =>
      let st := if nodecount > 0 then
          { st with lastsocket := st.lastsocket + 1 } else st
      (List.range diecount.toNat).foldl (fun st die =>
        natRepeat (pass1Node die) nodecount.toNat st) st)
    packagecount.toNat st
  let st := { st with lastnodeInGroup := st.sourcenode + 1 }
  let st := match spec.distSameDie with
    | some v => { st with distSameDie := v }
    | none => st
  let st := match spec.distSamePackage with
    | some v => { st with distSamePackage := v }
    | none => st
  let st := match spec.distAll with
    | some m => { st with distMatrix := some m }
    | none => st
  match spec.nodeDist with
  | some nd =>
      { st with nodeNodeDist := fun n =>
          if firstNode ≤ (n : Int) ∧ (n : Int) < st.lastnodeInGroup then some nd
          else st.nodeNodeDist n }
  | none => st

/-- The whole first pass of the dists function. -/
def distsPass1 (numalist : List NumaSpec) : Pass1State :=
  numalist.foldl pass1Group {}

/-- The node-dist override consulted by the second pass of dists for an
    ordered pair of nodes. -/
def ovLookup (st : Pass1State) (s d : Nat) : Option Int :=
  match st.nodeNodeDist s with
  | none => none
  | some m => dictLookup m (d : Int)

/-- The topology-based default distance of the second pass of dists. -/
def topoDist (st : Pass1State) (s d : Nat) : Int :=
  if st.nodePackageDie s = st.nodePackageDie d then st.distSameDie
  else if (st.nodePackageDie s).map Prod.fst
        = (st.nodePackageDie d).map Prod.fst then st.distSamePackage
  else st.distOtherPackage

/-- One iteration of the second pass of dists for a source and destination
    node pair: self distance, symmetric node-dist override, or (only when
    the entry is still missing) the topology default. -/
def pass2step (st : Pass1State) (dd : DD) (p : Nat × Nat) : DD :=
  if p.1 = p.2 then ddWrite dd p.1 p.2 DEFAULT_DIST_SAME_NODE
  else match ovLookup st p.1 p.2 with
    | some v => ddWrite (ddWrite dd p.1 p.2 v) p.2 p.1 v
    | none =>
        if (dd p.1 p.2).isSome then dd
        else ddWrite dd p.1 p.2 (topoDist st p.1 p.2)

/-- The second pass of dists when no dist-all matrix was supplied: the two
    nested loops over all ordered node pairs. -/
def pass2 (st : Pass1State) (n : Nat) : DD :=
  (List.range n).foldl (fun dd s =>
    (List.range n).foldl (fun dd d => pass2step st dd (s, d)) dd)
    (fun _ _ => none)

/-- Fill one row of dist_dict from a dist-all row. -/
def fillRow (dd : DD) (s : Nat) (row : List Int) : DD :=
  row.enum.foldl (fun dd p => ddWrite dd s p.1 p.2) dd

/-- Fill dist_dict from a dist-all matrix, checking each row length while
    walking the rows (as the source does). -/
def fillMatrix (n : Nat) (m : List (List Int)) : Except String DD :=
  m.enum.foldlM (fun dd p =>
      if p.2.length ≠ n then
        .error "wrong dimensions in dist-all on row"
      else .ok (fillRow dd p.1 p.2))
    (fun _ _ => none)

/-- The returned dist_dict: a function plus the size of its key range
    (the dictionary built by the source has keys 0 .. n-1 on both levels). -/
structure DistDict where
  d : DD
  n : Nat

/-- Function dists from the source: first pass over the group list, then
    either the dist-all matrix is copied verbatim (with dimension checks) or
    the pairwise second pass runs. -/
def dists (numalist : List NumaSpec) : Except String DistDict :=
  let st := distsPass1 numalist
  if st.lastnodeInGroup < 0 then .error "no NUMA nodes found"
  else
    let lastnode := st.lastnodeInGroup - 1
    let n := (lastnode + 1).toNat
    match st.distMatrix with
    | some m =>
        if m.length ≠ n then
          .error "wrong dimensions in dist-all rows"
        else
          match fillMatrix n m with
          | .ok dd => .ok ⟨dd, n⟩
          | .error e => .error e
    | none => .ok ⟨pass2 st n, n⟩

/-- Lowercase hexadecimal rendering of a natural number (Python % x format). -/
def toHex (n : Nat) : String := String.mk (Nat.toDigits 16 n)

/-- The constant chassis number 0xc1 of qemucxlopts.  The source never
    changes it (only slot varies), so every (slot, chassis) pair is unique. -/
def chassis : Nat := 0xc1

/-- The counters and parameter lists shared by the nested functions of
    qemucxlopts. -/
structure CxlState where
  objectparams : List String := []
  deviceparams : List String := []
  totalMemSizeM : Int := 0
  memCount : Nat := 0
  portCount : Nat := 0
  busNr : Nat := 12
  slot : Nat := 0

/-- Size parsing done by cxlmemopts: integer megabytes or gigabytes. -/
def parseCxlSizeM (memSize : String) : Except String Int :=
  if strEndsWith memSize "G" then
    match pythonInt (memSize.dropRight 1) with
    | some v => .ok (v * 1024)
    | none => .error "bad memory size in CXL memory device"
  else if strEndsWith memSize "M" then
    match pythonInt (memSize.dropRight 1) with
    | some v => .ok v
    | none => .error "bad memory size in CXL memory device"
  else .error "CXL memory size must be in M or G"

/-- Nested function cxlmemopts of qemucxlopts: emit the backing
    memory-backend object (always) and, only when the device is present at
    boot, the cxl-type3 device parameter; accumulate the total size and the
    memory device counter. -/
def cxlmemopts (st : CxlState) (device : CxlDevice) (busId : String) :
    Except String CxlState :=
  match device.mem with
  | none => .error "KeyError: mem"
  | some memSize =>
    match parseCxlSizeM memSize with
    | .error e => .error e
    | .ok sizeM =>
      let sn := "0xc100" ++ toHex (0xe2e0 + st.memCount)
      let memdevId := "cxl_memdev" ++ toString st.memCount
      let backendId := "beram_" ++ memdevId ++ "__bus_" ++ busId ++ "__sn_" ++ sn
      let st := { st with objectparams := st.objectparams ++
          ["-object",
           "memory-backend-ram,id=" ++ backendId ++ ",share=on,size=" ++ memSize] }
      let st := if device.present.getD true then
          { st with deviceparams := st.deviceparams ++
              ["-device",
               "cxl-type3,bus=" ++ busId ++ ",volatile-memdev=" ++ backendId ++
               ",id=" ++ memdevId ++ ",sn=" ++ sn] }
        else st
      .ok { st with totalMemSizeM := st.totalMemSizeM + sizeM,
                    memCount := st.memCount + 1 }

mutual

/-- Nested function cxlswitchopts of qemucxlopts: emit the upstream bridge
    under busId and walk the downstream devices of the switch. -/
def cxlswitchopts (st : CxlState) (device : CxlDevice) (busId : String) :
    Except String CxlState :=
  match device with
  | .mk _ _ none => .error "KeyError: switch"
  | .mk _ _ (some downs) =>
      let upstreamId := "cxlsw_us" ++ busId.drop 3
      let st := { st with deviceparams := st.deviceparams ++
          ["-device", "cxl-upstream,bus=" ++ busId ++ ",id=" ++ upstreamId] }
      cxlDownList st downs 0 upstreamId

/-- The enumerated loop over the downstream devices of a switch: emit a
    downstream port, then dispatch on the device shape; a device that is
    neither a memory device nor a switch raises here. -/
def cxlDownList (st : CxlState) (devs : List CxlDevice) (idx : Nat)
    (upstreamId : String) : Except String CxlState :=
  match devs with
  | [] => .ok st
  | d :: rest =>
      let downstreamId := "cxlsw_ds" ++ toString idx ++ "_" ++ upstreamId.drop 6
      let st := { st with deviceparams := st.deviceparams ++
          ["-device",
           "cxl-downstream,port=" ++ toString st.portCount ++ ",bus=" ++
           upstreamId ++ ",id=" ++ downstreamId ++ ",chassis=" ++
           toString chassis ++ ",slot=" ++ toString st.slot] }
      let st := { st with portCount := st.portCount + 1, slot := st.slot + 1 }
      match d.mem, d.sw with
      | some _, _ =>
          match cxlmemopts st d downstreamId with
          | .ok st => cxlDownList st rest (idx + 1) upstreamId
          | .error e => .error e
      | none, some _ =>
          match cxlswitchopts st d downstreamId with
          | .ok st => cxlDownList st rest (idx + 1) upstreamId
          | .error e => .error e
      | none, none => .error "unsupported CXL device in switch"

end

/-- The enumerated loop over the root port connections of one host bridge:
    emit a cxl-rp root port, then dispatch on the device shape.  Unlike the
    switch walk, a device that is neither a memory device nor a switch is
    silently skipped (the source has no else branch here). -/
def cxlRootPorts (st : CxlState) (ports : List CxlDevice) (idx : Nat)
    (hostBridgeId : String) : Except String CxlState :=
  match ports with
  | [] => .ok st
  | device :: rest =>
      let rootPortId := "cxlrp" ++ toString idx ++ hostBridgeId.drop 3
      let st := { st with deviceparams := st.deviceparams ++
          ["-device",
           "cxl-rp,port=" ++ toString st.portCount ++ ",bus=" ++ hostBridgeId ++
           ",id=" ++ rootPortId ++ ",chassis=" ++ toString chassis ++
           ",slot=" ++ toString st.slot] }
      let st := { st with portCount := st.portCount + 1, slot := st.slot + 1 }
      match device.mem, device.sw with
      | some _, _ =>
          match cxlmemopts st device rootPortId with
          | .ok st => cxlRootPorts st rest (idx + 1) hostBridgeId
          | .error e => .error e
      | none, some _ =>
          match cxlswitchopts st device rootPortId with
          | .ok st => cxlRootPorts st rest (idx + 1) hostBridgeId
          | .error e => .error e
      | none, none => cxlRootPorts st rest (idx + 1) hostBridgeId

/-- The enumerated loop over host bridges: emit a pxb-cxl host bridge bound
    to the NUMA node equal to its index, record it as a firmware window
    target, step the bus number cursor, then walk its root ports. -/
def cxlBridges (st : CxlState) (bridges : List (List CxlDevice)) (idx : Nat)
    (targets : List String) : Except String (CxlState × List String) :=
  match bridges with
  | [] => .ok (st, targets)
  | rootPorts :: rest =>
      let hostBridgeId := "cxlhb" ++ toString idx
      let st := { st with deviceparams := st.deviceparams ++
          ["-device",
           "pxb-cxl,bus_nr=" ++ toString st.busNr ++ ",bus=pcie.0,id=" ++
           hostBridgeId ++ ",numa_node=" ++ toString idx] }
      let targets := targets ++ [hostBridgeId]
      let st := { st with busNr := st.busNr + 12 }
      match cxlRootPorts st rootPorts 0 hostBridgeId with
      | .ok st => cxlBridges st rest (idx + 1) targets
      | .error e => .error e

/-- The tuple returned by qemucxlopts; the source returns
    (objectparams, deviceparams, Mparams, total size string), here the two
    sizes used to build the strings are exposed as fields as well. -/
structure CxlResult where
  objectparams : List String
  deviceparams : List String
  mparams : List String
  totalcxlmem : String
  addrSizeG : Int
  totalMemSizeM : Int
deriving Repr

/-- Function qemucxlopts from the source: walk the forest of host bridges,
    then compute the firmware window size (total CXL memory rounded up to
    the next multiple of 4 GiB) and the total CXL memory rounded up to the
    next whole GiB. -/
def qemucxlopts (forest : List (List CxlDevice)) : Except String CxlResult :=
  match cxlBridges {} forest 0 [] with
  | .error e => .error e
  | .ok (st, targets) =>
      let addrSizeG := ((st.totalMemSizeM + 4095).fdiv 4096) * 4
      let totalMemSizeG := (st.totalMemSizeM + 1023).fdiv 1024
      let mjoin := String.intercalate ","
        (targets.enum.map (fun p =>
          "cxl-fmw." ++ toString p.1 ++ ".targets.0=" ++ p.2 ++
          ",cxl-fmw." ++ toString p.1 ++ ".size=" ++ toString addrSizeG ++ "G"))
      .ok { objectparams := st.objectparams,
            deviceparams := st.deviceparams,
            mparams := ["-M", mjoin],
            totalcxlmem := toString totalMemSizeG ++ "G",
            addrSizeG := addrSizeG,
            totalMemSizeM := st.totalMemSizeM }

/-- Run a fallible state transformation n times (a Python for loop over
    range(n) whose body may raise and does not use the loop variable). -/
def repeatE {σ : Type} (f : σ → Except String σ) :
    Nat → σ → Except String σ
  | 0, st => .ok st
  | n + 1, st =>
      match f st with
      | .ok st => repeatE f n st
      | .error e => .error e

/-- Append a suffix to the last element of a list (the Python statement
    currentnumaparams[-1] += suffix; the empty case cannot be reached by the
    caller). -/
def appendToLast : List String → String → List String
  | [], _ => []
  | [x], suffix => [x ++ suffix]
  | x :: rest, suffix => x :: appendToLast rest suffix

/-- The Python expression tuple(range(a, a + n)). -/
def rangeInt (a n : Int) : List Int :=
  (List.range n.toNat).map (fun k => a + (k : Int))

/-- The mutable local variables of qemuopts threaded through its main loop. -/
structure MainState where
  machineparam : String := "-machine q35,kernel-irqchip=split"
  numaparams : List String := []
  objectparams : List String := []
  deviceparams : List String := []
  lastnode : Int := -1
  lastcpu : Int := -1
  lastcpupresent : Int := -1
  lastdie : Int := -1
  lastsocket : Int := -1
  lastmem : Int := -1
  lastnvmem : Int := -1
  totalmem : String := "0G"
  totalnvmem : String := "0G"
  totalcxlmem : String := "0G"
  unpluggedmem : String := "0G"
  pluggedmem : String := "0G"
  memslots : Nat := 0
  threadcount : Int := -1
  groupnodes : List (Nat × List Int) := []
  numalistWithDist : List NumaSpec := []
deriving Repr

/-- The per-group quantities read once before the package/die/node loops of
    qemuopts. -/
structure GroupCtx where
  memsize : String
  memdimm : String
  nvmemsize : String
  memcount : Nat
  nvmemcount : Nat
  cpucount : Int
  cpuspresentcount : Int
  nodecount : Int
  diecount : Int
  packagecount : Int

/-- One iteration of the mem loop of qemuopts: allocate a memory backend
    object for the current node in the mode selected by the dimm key.  The
    second component of the pair is the currentnumaparams list of the
    enclosing node iteration. -/
def memIter (g : GroupCtx) (acc : MainState × List String) :
    Except String (MainState × List String) :=
  let (st, cur) := acc
  let lastmem := st.lastmem + 1
  let st := { st with lastmem := lastmem }
  let branch : Except String (MainState × List String) :=
    if g.memdimm = "" then
      let st := { st with objectparams := st.objectparams ++
          ["-object",
           "memory-backend-ram,size=" ++ g.memsize ++ ",id=membuiltin_" ++
           toString lastmem ++ "_node_" ++ toString st.lastnode] }
      let cur := cur ++
          ["-numa",
           "node,nodeid=" ++ toString st.lastnode ++ ",memdev=membuiltin_" ++
           toString lastmem ++ "_node_" ++ toString st.lastnode]
      .ok (st, cur)
    else if g.memdimm = "plugged" then
      let st := { st with objectparams := st.objectparams ++
          ["-object",
           "memory-backend-ram,size=" ++ g.memsize ++ ",id=memdimm_" ++
           toString lastmem ++ "_node_" ++ toString st.lastnode] }
      let cur := cur ++ ["-numa", "node,nodeid=" ++ toString st.lastnode]
      let st := { st with deviceparams := st.deviceparams ++
          ["-device",
           "pc-dimm,node=" ++ toString st.lastnode ++ ",id=dimm" ++
           toString lastmem ++ ",memdev=memdimm_" ++ toString lastmem ++
           "_node_" ++ toString st.lastnode] }
      match siadd st.pluggedmem g.memsize with
      | .error e => .error e
      | .ok pluggedmem =>
          .ok ({ st with pluggedmem := pluggedmem,
                         memslots := st.memslots + 1 }, cur)
    else if g.memdimm = "unplugged" then
      let st := { st with objectparams := st.objectparams ++
          ["-object",
           "memory-backend-ram,size=" ++ g.memsize ++ ",id=memdimm_" ++
           toString lastmem ++ "_node_" ++ toString st.lastnode] }
      let cur := cur ++ ["-numa", "node,nodeid=" ++ toString st.lastnode]
      match siadd st.unpluggedmem g.memsize with
      | .error e => .error e
      | .ok unpluggedmem =>
          .ok ({ st with unpluggedmem := unpluggedmem,
                         memslots := st.memslots + 1 }, cur)
    else .error "unsupported dimm, expected plugged or unplugged"
  match branch with
  | .error e => .error e
  | .ok (st, cur) =>
      match siadd st.totalmem g.memsize with
      | .error e => .error e
      | .ok totalmem => .ok ({ st with totalmem := totalmem }, cur)

/-- One iteration of the nvmem loop of qemuopts: allocate a non-volatile
    memory backend; the first nvmem allocation anywhere turns on nvdimm
    support on the machine parameter. -/
def nvmemIter (g : GroupCtx) (acc : MainState × List String) :
    Except String (MainState × List String) :=
  let (st, cur) := acc
  let lastnvmem := st.lastnvmem + 1
  let lastmem := st.lastmem + 1
  let st := { st with lastnvmem := lastnvmem, lastmem := lastmem }
  let st := if lastnvmem = 0 then
      { st with machineparam := st.machineparam ++ ",nvdimm=on" }
    else st
  let branch : Except String (MainState × List String) :=
    if g.memdimm = "" then
      let st := { st with objectparams := st.objectparams ++
          ["-object",
           "memory-backend-ram,size=" ++ g.nvmemsize ++ ",id=memnvbuiltin_" ++
           toString lastmem ++ "_node_" ++ toString st.lastnode] }
      let cur := cur ++
          ["-numa",
           "node,nodeid=" ++ toString st.lastnode ++ ",memdev=memnvbuiltin_" ++
           toString lastmem ++ "_node_" ++ toString st.lastnode]
      .ok (st, cur)
    else if g.memdimm = "plugged" then
      let st := { st with objectparams := st.objectparams ++
          ["-object",
           "memory-backend-ram,size=" ++ g.nvmemsize ++ ",id=memnvdimm_" ++
           toString lastmem ++ "_node_" ++ toString st.lastnode] }
      let cur := cur ++ ["-numa", "node,nodeid=" ++ toString st.lastnode]
      let st := { st with deviceparams := st.deviceparams ++
          ["-device",
           "nvdimm,node=" ++ toString st.lastnode ++ ",id=nvdimm" ++
           toString lastmem ++ ",memdev=memnvdimm_" ++ toString lastmem ++
           "_node_" ++ toString st.lastnode] }
      match siadd st.pluggedmem g.nvmemsize with
      | .error e => .error e
      | .ok pluggedmem =>
          .ok ({ st with pluggedmem := pluggedmem,
                         memslots := st.memslots + 1 }, cur)
    else if g.memdimm = "unplugged" then
      let st := { st with objectparams := st.objectparams ++
          ["-object",
           "memory-backend-ram,size=" ++ g.nvmemsize ++ ",id=memnvdimm_" ++
           toString lastmem ++ "_node_" ++ toString st.lastnode] }
      let cur := cur ++ ["-numa", "node,nodeid=" ++ toString st.lastnode]
      match siadd st.unpluggedmem g.nvmemsize with
      | .error e => .error e
      | .ok unpluggedmem =>
          .ok ({ st with unpluggedmem := unpluggedmem,
                         memslots := st.memslots + 1 }, cur)
    else .error "unsupported dimm, expected plugged or unplugged"
  match branch with
  | .error e => .error e
  | .ok (st, cur) =>
      match siadd st.totalnvmem g.nvmemsize with
      | .error e => .error e
      | .ok totalnvmem => .ok ({ st with totalnvmem := totalnvmem }, cur)

/-- One iteration of the node loop of qemuopts: allocate a node id, run the
    mem and nvmem loops into a fresh currentnumaparams list, attach the CPU
    range to its last entry when the group has CPUs, and flush
    currentnumaparams into numaparams. -/
def nodeBody (g : GroupCtx) (st : MainState) : Except String MainState :=
  let st := { st with lastnode := st.lastnode + 1 }
  match repeatE (memIter g) g.memcount (st, []) with
  | .error e => .error e
  | .ok (st, cur) =>
    match repeatE (nvmemIter g) g.nvmemcount (st, cur) with
    | .error e => .error e
    | .ok (st, cur) =>
      let (st, cur) :=
        if g.cpucount > 0 then
          let cur := if cur.isEmpty then
              ["-numa", "node,nodeid=" ++ toString st.lastnode]
            else cur
          let cur := appendToLast cur
            (",cpus=" ++ toString (st.lastcpu + 1) ++ "-" ++
             toString (st.lastcpu + g.cpucount))
          let st := { st with lastcpu := st.lastcpu + g.cpucount }
          let st := if g.cpuspresentcount > 0 then
              { st with lastcpupresent := g.cpuspresentcount - 1 }
            else
              { st with lastcpupresent := st.lastcpupresent + g.cpucount }
          (st, cur)
        else (st, cur)
      .ok { st with numaparams := st.numaparams ++ cur }

/-- One iteration of the die loop of qemuopts. -/
def dieBody (g : GroupCtx) (st : MainState) : Except String MainState :=
  let st := if g.nodecount > 0 ∧ g.cpucount > 0 then
      { st with lastdie := st.lastdie + 1 } else st
  repeatE (nodeBody g) g.nodecount.toNat st

/-- One iteration of the package loop of qemuopts. -/
def packageBody (g : GroupCtx) (st : MainState) : Except String MainState :=
  let st := if g.nodecount > 0 ∧ g.cpucount > 0 then
      { st with lastsocket := st.lastsocket + 1 } else st
  repeatE (dieBody g) g.diecount.toNat st

/-- The NUMA-group branch of the main loop of qemuopts for one entry:
    record the entry for the later distance computation, fix or cross-check
    the global thread count, read the per-group quantities and run the
    package/die/node loops. -/
def numaGroup (st : MainState) (numalistindex : Nat) (spec : NumaSpec) :
    Except String MainState :=
  let st := { st with numalistWithDist := st.numalistWithDist ++ [spec] }
  let nodecount := spec.nodes.getD 1
  let st := { st with groupnodes := st.groupnodes ++
      [(numalistindex, rangeInt (st.lastnode + 1) nodecount)] }
  let corecount := spec.cores.getD 0
  let tcheck : Except String MainState :=
    if corecount > 0 then
      if st.threadcount < 0 then
        .ok { st with threadcount := spec.threads.getD 2 }
      else
        match spec.threads with
        | some t =>
            if st.threadcount ≠ t then
              .error "all CPUs must have the same number of threads"
            else .ok st
        | none => .ok st
    else .ok st
  match tcheck with
  | .error e => .error e
  | .ok st =>
    let g : GroupCtx :=
      { memsize := spec.mem.getD "0",
        memdimm := spec.dimm.getD "",
        nvmemsize := spec.nvmem.getD "0",
        memcount := if spec.mem.getD "0" ≠ "0" then 1 else 0,
        nvmemcount := if spec.nvmem.getD "0" ≠ "0" then 1 else 0,
        cpucount := spec.cores.getD 0 * st.threadcount,
        cpuspresentcount := spec.cpusPresent.getD 0,
        nodecount := nodecount,
        diecount := spec.dies.getD 1,
        packagecount := spec.packages.getD 1 }
    repeatE (packageBody g) g.packagecount.toNat st

/-- Truthiness of the cxl value of an entry (the Python condition
    if cxl_spec), true exactly for a nonempty list. -/
def truthyCxl (spec : NumaSpec) : Bool :=
  match spec.cxl with
  | some l => !l.isEmpty
  | none => false

/-- The Python condition set(numaspec.keys()) - set(("cxl",)): does the
    entry carry any key besides cxl? -/
def hasKeysBesidesCxl (spec : NumaSpec) : Bool :=
  spec.mem.isSome || spec.nvmem.isSome || spec.dimm.isSome ||
  spec.cores.isSome || spec.threads.isSome || spec.nodes.isSome ||
  spec.dies.isSome || spec.packages.isSome || spec.cpusPresent.isSome ||
  spec.nodeDist.isSome || spec.distAll.isSome ||
  spec.distSameDie.isSome || spec.distSamePackage.isSome ||
  spec.distOtherPackage.isSome || !spec.otherKeys.isEmpty

/-- One iteration of the main loop of qemuopts over the enumerated input
    list: the CXL branch (entered when the cxl value is truthy, that is a
    nonempty list) or the NUMA-group branch. -/
def processGroup (st : MainState) (p : Nat × NumaSpec) :
    Except String MainState :=
  let (numalistindex, spec) := p
  if truthyCxl spec then
    match spec.cxl with
    | none => .error "unreachable"
    | some cxlSpec =>
      if hasKeysBesidesCxl spec then
        .error "when cxl is defined, no other keys are supported in the same group"
      else
        match qemucxlopts cxlSpec with
        | .error e => .error e
        | .ok r =>
          let st := { st with totalcxlmem := r.totalcxlmem }
          if r.deviceparams ≠ [] then
            let st := { st with objectparams := st.objectparams ++ r.objectparams }
            let st := { st with deviceparams :=
                st.deviceparams ++ r.deviceparams ++ r.mparams }
            let st := { st with memslots := st.memslots + st.objectparams.length }
            let st := if containsSub st.machineparam ",cxl=on" then st
              else { st with machineparam := st.machineparam ++ ",cxl=on" }
            .ok st
          else .ok st
  else numaGroup st numalistindex spec

/-- The explicit inter-node distance lines appended to numaparams after the
    main loop: one line per ordered pair of distinct nodes, in sorted
    order.  The dictionary built by dists is total on 0 .. n-1, so the getD
    fallback is never taken. -/
def distParams (ddres : DistDict) : List String :=
  (List.range ddres.n).foldl (fun acc s =>
    (List.range ddres.n).foldl (fun acc dst =>
      if s = dst then acc
      else acc ++
        ["-numa",
         "dist,src=" ++ toString s ++ ",dst=" ++ toString dst ++ ",val=" ++
         toString ((ddres.d s dst).getD 0)]) acc) []

/-- The value returned by qemuopts: the source returns only the output
    string (in the default, non separated mode); the components from which
    it is assembled are exposed as fields. -/
structure QemuResult where
  output : String
  machineparam : String
  cpuparam : String
  smpparam : String
  memparam : String
  numaparams : List String
  deviceparams : List String
  objectparams : List String
  cpus : Int
  threads : Int
  sockets : Int
  maxcpus : Int
deriving Repr

/-- The tail of qemuopts after its main loop: build the distance lines,
    check that CPUs exist, assemble the -smp, -m and -machine parameters and
    concatenate the final parameter string. -/
def qemuoptsAssemble (st : MainState) : Except String QemuResult :=
  match dists st.numalistWithDist with
  | .error e => .error e
  | .ok ddres =>
    let st := { st with numaparams := st.numaparams ++ distParams ddres }
    if st.lastcpu = -1 then
      .error "no CPUs found, make sure at least one NUMA node has cores > 0"
    else
      let diesPerSocket : Int := (st.lastdie + 1).fdiv (st.lastsocket + 1)
      let diesparam := if diesPerSocket > 1 then
          ",dies=" ++ toString diesPerSocket else ""
      let cpus : Int := st.lastcpupresent + 1
      let sockets : Int := st.lastsocket + 1
      let maxcpus : Int := st.lastcpu + 1
      let smpparam := "-smp cpus=" ++ toString cpus ++
        ",threads=" ++ toString st.threadcount ++ diesparam ++
        ",sockets=" ++ toString sockets ++
        ",maxcpus=" ++ toString maxcpus
      match siadd st.totalmem st.totalnvmem with
      | .error e => .error e
      | .ok m1 =>
        match siadd m1 st.totalcxlmem with
        | .error e => .error e
        | .ok maxmem =>
          match sisub maxmem st.unpluggedmem with
          | .error e => .error e
          | .ok s1 =>
            match sisub s1 st.pluggedmem with
            | .error e => .error e
            | .ok s2 =>
              match sisub s2 st.totalcxlmem with
              | .error e => .error e
              | .ok startmem =>
                let memparam := "-m size=" ++ startmem ++ ",slots=" ++
                  toString st.memslots ++ ",maxmem=" ++ maxmem
                if strStartsWith startmem "0" then
                  if strStartsWith st.pluggedmem "0" then
                    .error "no memory in any NUMA node"
                  else
                    .error "no initial memory in any NUMA node - cannot boot with hotpluggable memory"
                else
                  let machineparam := st.machineparam ++ ",accel=kvm"
                  let cpuparam := "-cpu host,x2apic=on"
                  .ok { output := machineparam ++ " " ++ cpuparam ++ " " ++
                          smpparam ++ " " ++ memparam ++ " " ++
                          String.intercalate " " st.numaparams ++ " " ++
                          String.intercalate " " st.deviceparams ++ " " ++
                          String.intercalate " " st.objectparams,
                        machineparam := machineparam,
                        cpuparam := cpuparam,
                        smpparam := smpparam,
                        memparam := memparam,
                        numaparams := st.numaparams,
                        deviceparams := st.deviceparams,
                        objectparams := st.objectparams,
                        cpus := cpus,
                        threads := st.threadcount,
                        sockets := sockets,
                        maxcpus := maxcpus }

/-- Function qemuopts from the source: validate, run the main loop over the
    enumerated group list, then assemble the output. -/
def qemuopts (numalist : List NumaSpec) : Except String QemuResult :=
  match validate numalist with
  | .error e => .error e
  | .ok _ =>
    match numalist.enum.foldlM processGroup ({} : MainState) with
    | .error e => .error e
    | .ok st => qemuoptsAssemble st

/-- The distance stored by dists for an ordered node pair (none when dists
    fails or the entry is absent). -/
def distAt (e : Except String DistDict) (i j : Nat) : Option Int :=
  match e with
  | .ok dd => dd.d i j
  | .error _ => none

/-- The number of nodes counted by the first pass of dists. -/
def numDistNodes (nl : List NumaSpec) : Nat :=
  (distsPass1 nl).lastnodeInGroup.toNat

/-- The maxcpus count of the emitted -smp summary, when compilation
    succeeds. -/
def maxcpusOf (nl : List NumaSpec) : Option Int :=
  match qemuopts nl with
  | .ok r => some r.maxcpus
  | .error _ => none

/-- The firmware window size in GiB emitted by qemucxlopts, when it
    succeeds. -/
def addrSizeOf (f : List (List CxlDevice)) : Option Int :=
  match qemucxlopts f with
  | .ok r => some r.addrSizeG
  | .error _ => none

/-- The NUMA-group entries that reach the distance computation: exactly the
    entries whose cxl value is not truthy (numalist_with_dist in the
    source). -/
def nonCxlGroups (nl : List NumaSpec) : List NumaSpec :=
  nl.filter (fun s => !truthyCxl s)

/-- Modelled from the claim wording of C5: the effective thread count is the
    one fixed by the first CPU-bearing group (its threads value, default 2). -/
def effThreads (nl : List NumaSpec) : Int :=
  match nl.find? (fun s => decide (s.cores.getD 0 > 0)) with
  | some s => s.threads.getD 2
  | none => 2

/-- Modelled from the claim wording of C5: sum over CPU-bearing groups
    (cores > 0) of cores x t x dies x packages x nodes for a given thread
    count t. -/
def specCpuSumWith (t : Int) : List NumaSpec → Int
  | [] => 0
  | s :: rest =>
      (if s.cores.getD 0 > 0 then
        s.cores.getD 0 * t * s.dies.getD 1 * s.packages.getD 1 * s.nodes.getD 1
      else 0) + specCpuSumWith t rest

/-- Modelled from the claim wording of C5: the claimed total logical CPU
    count. -/
def specCpuSum (nl : List NumaSpec) : Int :=
  specCpuSumWith (effThreads nl) nl

mutual

/-- Modelled from the claim wording of C6: the requested megabytes of one
    CXL device entry, following the dispatch order of the builder (a memory
    device counts its size; a switch counts its subtree; anything else
    counts zero). -/
def specDeviceMB : CxlDevice → Int
  | .mk (some s) _ _ => ((parseCxlSizeM s).toOption).getD 0
  | .mk none _ (some l) => specListMB l
  | .mk none _ none => 0

/-- Total requested megabytes of a list of CXL device entries. -/
def specListMB : List CxlDevice → Int
  | [] => 0
  | d :: rest => specDeviceMB d + specListMB rest

end

/-- Modelled from the claim wording of C6: the total requested CXL memory
    of a forest, in megabytes. -/
def specTotalRequestedMB (f : List (List CxlDevice)) : Int :=
  (f.map specListMB).sum

mutual

/-- Shape predicate: a device reachable inside a switch is either a memory
    device or a switch whose downstream devices all satisfy the predicate. -/
def goodInSwitch : CxlDevice → Bool
  | .mk (some _) _ _ => true
  | .mk none _ (some l) => goodList l
  | .mk none _ none => false

/-- All devices of a downstream list satisfy goodInSwitch. -/
def goodList : List CxlDevice → Bool
  | [] => true
  | d :: rest => goodInSwitch d && goodList rest

end

/-- Shape predicate at a root port: a shapeless device (neither mem nor
    switch) is acceptable there because the builder silently skips it, but
    every device reachable inside a switch must be well shaped. -/
def rootOK : CxlDevice → Bool
  | .mk (some _) _ _ => true
  | .mk none _ (some l) => goodList l
  | .mk none _ none => true

/-- Input for C1: two packages of one node each, with dist-other-package
    set to 30 in the only group. -/
def c1input : List NumaSpec :=
  [{ packages := some 2, cores := some 1, mem := some "1G",
     distOtherPackage := some 30 }]

/-- C1: the documented key dist-other-package is accepted by validate and
    described by the module docstring as the default distance between nodes
    in different packages, but dists never reads it (it reads the invalid
    dead key "dist" instead), so the two nodes of c1input, which sit in
    packages 0 and 1, get the built-in default distance 21 instead of the
    requested 30. -/
theorem c1_dist_other_package_ignored :
    validate c1input = .ok () ∧
    ((distsPass1 c1input).nodePackageDie 0).map Prod.fst = some 0 ∧
    ((distsPass1 c1input).nodePackageDie 1).map Prod.fst = some 1 ∧
    distAt (dists c1input) 0 1 = some DEFAULT_DIST ∧
    ¬ distAt (dists c1input) 0 1 = some 30 := by
  refine ⟨rfl, rfl, rfl, rfl, ?_⟩
  decide

/-- A CXL device entry with neither a mem key nor a switch key, attached
    directly to a root port. -/
def c2entry : CxlDevice := .mk none none none

/-- Input for the C2 counterexample: a CPU and memory bearing group plus a
    CXL group whose only root port carries the shapeless device. -/
def c2input : List NumaSpec :=
  [{ cores := some 1, mem := some "1G" }, { cxl := some [[c2entry]] }]

/-- C2 counterexample: a device entry with neither mem nor switch that is
    attached directly to a root port does not make compilation fail; the
    whole input compiles. -/
theorem c2_root_port_shapeless_compiles :
    c2entry.mem = none ∧ c2entry.sw = none ∧
    isOk (qemuopts c2input) = true := by
  exact ⟨rfl, rfl, rfl⟩

/-- Input for the C3 counterexample: one node whose dist-all matrix has 99
    on the diagonal. -/
def c3input : List NumaSpec :=
  [{ cores := some 1, mem := some "1G", distAll := some [[99]] }]

/-- C3 counterexample: with a dist-all matrix the diagonal is copied
    verbatim, so a successful compilation can have a self-distance other
    than 10. -/
theorem c3_self_distance_counterexample :
    isOk (qemuopts c3input) = true ∧
    distAt (dists c3input) 0 0 = some 99 ∧ (99 : Int) ≠ 10 := by
  refine ⟨rfl, rfl, ?_⟩
  decide

/-- The entry of the C4 counterexample: the key cxl (with a falsy, empty
    list value) together with other keys. -/
def c4entry : NumaSpec :=
  { cxl := some [], cores := some 1, mem := some "1G" }

/-- Input for the C4 counterexample. -/
def c4input : List NumaSpec := [c4entry]

/-- C4 counterexample: an entry that contains the key cxl (value: the empty
    list) together with the keys cores and mem compiles fine, because the
    source only rejects extra keys when the cxl value is truthy. -/
theorem c4_falsy_cxl_with_other_keys_compiles :
    c4entry.cxl.isSome = true ∧ hasKeysBesidesCxl c4entry = true ∧
    isOk (qemuopts c4input) = true := by
  exact ⟨rfl, rfl, rfl⟩

/-- Input for the C9 counterexample: a negative mem size. -/
def c9input : List NumaSpec := [{ mem := some "-2G" }]

/-- C9 counterexample: validation accepts the negative size "-2G" (the
    size check only runs the value through the gigabyte adder, whose int()
    parse accepts a sign), so values that are not non-negative sizes are
    not all rejected. -/
theorem c9_negative_size_accepted :
    siadd "-2G" "0G" = .ok "-2G" ∧ validate c9input = .ok () := by
  exact ⟨rfl, rfl⟩

/-- The backend object id built by cxlmemopts for the memory device with the
    given counter value, attached to busId. -/
def cxlBackendId (memCount : Nat) (busId : String) : String :=
  "beram_" ++ ("cxl_memdev" ++ toString memCount) ++ "__bus_" ++ busId ++
    "__sn_" ++ ("0xc100" ++ toHex (0xe2e0 + memCount))

/-- C7: a CXL memory device that is not present at boot still receives its
    backing memory-backend object, still adds its size to the total CXL
    memory count and its identity to the memory device counter, but emits
    no cxl-type3 device parameter (deviceparams is unchanged in the
    resulting state). -/
theorem c7_absent_device_keeps_backend (st : CxlState) (device : CxlDevice)
    (busId : String) (s : String) (szM : Int)
    (hm : device.mem = some s) (hp : device.present = some false)
    (hs : parseCxlSizeM s = .ok szM) :
    cxlmemopts st device busId = .ok
      { st with
          objectparams := st.objectparams ++
            ["-object", "memory-backend-ram,id=" ++
              cxlBackendId st.memCount busId ++ ",share=on,size=" ++ s],
          totalMemSizeM := st.totalMemSizeM + szM,
          memCount := st.memCount + 1 } := by
  unfold cxlmemopts cxlBackendId
  rw [hm]
  dsimp only
  rw [hs]
  dsimp only
  rw [hp]
  simp only [Option.getD_some, Bool.false_eq_true, if_false]

/-- Witness for C7 at a concrete state and device. -/
theorem c7_witness :
    cxlmemopts {} (.mk (some "256M") (some false) none) "cxlrp0hb0" = .ok
      { ({} : CxlState) with
          objectparams := [] ++
            ["-object", "memory-backend-ram,id=" ++
              cxlBackendId 0 "cxlrp0hb0" ++ ",share=on,size=" ++ "256M"],
          totalMemSizeM := 0 + 256,
          memCount := 0 + 1 } :=
  c7_absent_device_keeps_backend {} (.mk (some "256M") (some false) none)
    "cxlrp0hb0" "256M" 256 rfl rfl rfl

/-- Bind on Except applied to a success. -/
theorem exceptBind_ok {ε α β : Type} (a : α) (g : α → Except ε β) :
    (Except.ok a >>= g) = g a := rfl

/-- Bind on Except applied to a failure. -/
theorem exceptBind_err {ε α β : Type} (e : ε) (g : α → Except ε β) :
    ((Except.error e : Except ε α) >>= g) = .error e := rfl

/-- If validate succeeds, checkSpec succeeded on every entry. -/
theorem validate_ok_of_mem :
    ∀ (l : List NumaSpec), validate l = .ok () → ∀ a ∈ l, checkSpec a = .ok () := by
  intro l
  induction l with
  | nil => intro _ a ha; cases ha
  | cons x xs ih =>
      intro h a ha
      unfold validate at h
      cases hx : checkSpec x with
      | error e => rw [hx] at h; cases h
      | ok u =>
          rw [hx] at h
          rcases List.mem_cons.mp ha with rfl | ha
          · cases u; exact hx
          · exact ih h a ha

/-- If foldlM over Except succeeds, the body succeeded on every element
    (from some intermediate state). -/
theorem foldlM_ok_of_mem {α σ : Type} (f : σ → α → Except String σ) :
    ∀ (l : List α) (s0 s1 : σ), l.foldlM f s0 = .ok s1 →
      ∀ a ∈ l, ∃ t t', f t a = .ok t' := by
  intro l
  induction l with
  | nil => intro _ _ _ a ha; cases ha
  | cons x xs ih =>
      intro s0 s1 h a ha
      rw [List.foldlM_cons] at h
      cases hx : f s0 x with
      | error e => rw [hx, exceptBind_err] at h; cases h
      | ok t =>
          rw [hx, exceptBind_ok] at h
          rcases List.mem_cons.mp ha with rfl | ha
          · exact ⟨s0, t, hx⟩
          · exact ih t s1 h a ha

/-- Invariant transport along a successful foldlM over Except. -/
theorem foldlM_inv {α σ : Type} (f : σ → α → Except String σ) (P : σ → Prop)
    (hstep : ∀ s a s', P s → f s a = .ok s' → P s') :
    ∀ (l : List α) (s0 s1 : σ), P s0 → l.foldlM f s0 = .ok s1 → P s1 := by
  intro l
  induction l with
  | nil => intro s0 s1 hp h; cases h; exact hp
  | cons x xs ih =>
      intro s0 s1 hp h
      rw [List.foldlM_cons] at h
      cases hx : f s0 x with
      | error e => rw [hx, exceptBind_err] at h; cases h
      | ok t => rw [hx, exceptBind_ok] at h; exact ih t s1 (hstep s0 x t hp hx) h

/-- Every member of a list appears in its enumeration from any base. -/
theorem exists_mem_enumFrom {α : Type} (a : α) :
    ∀ (l : List α) (n : Nat), a ∈ l → ∃ i, (i, a) ∈ l.enumFrom n := by
  intro l
  induction l with
  | nil => intro _ ha; cases ha
  | cons x xs ih =>
      intro n ha
      rcases List.mem_cons.mp ha with rfl | ha
      · exact ⟨n, List.mem_cons_self _ _⟩
      · obtain ⟨i, hi⟩ := ih (n + 1) ha
        exact ⟨i, List.mem_cons_of_mem _ hi⟩

/-- The conditions guaranteed by a successful checkSpec: no unknown keys,
    parseable sizes, and the integer range bounds. -/
theorem checkSpec_ok_iff (s : NumaSpec) :
    checkSpec s = .ok () ↔
    (s.otherKeys = [] ∧ sizeFieldOK s.mem = true ∧ sizeFieldOK s.nvmem = true ∧
     0 ≤ s.cores.getD 0 ∧ 0 < s.threads.getD 2 ∧
     0 < s.nodes.getD 1 ∧ 0 < s.dies.getD 1 ∧ 0 < s.packages.getD 1 ∧
     0 ≤ s.cpusPresent.getD 0 ∧
     ¬ (s.threads.isSome ∧ s.cores.getD 0 = 0)) := by
  constructor
  · intro h
    unfold checkSpec at h
    split at h
    · cases h
    next hok =>
    split at h
    · cases h
    next h2 =>
    split at h
    · cases h
    next h3 =>
    split at h
    · cases h
    next h4 =>
    split at h
    · cases h
    next h5 =>
    split at h
    · cases h
    next h6 =>
    split at h
    · cases h
    next h7 =>
    split at h
    · cases h
    next h8 =>
    split at h
    · cases h
    next h9 =>
    split at h
    · cases h
    next h10 =>
      push_neg at hok
      refine ⟨hok, by simpa using h2, by simpa using h3, ?_, ?_, ?_, ?_, ?_, ?_, h10⟩
      · cases hc : s.cores with
        | none => simp [Option.getD]
        | some c => rw [hc] at h4; simpa using fun hh => h4 ⟨rfl, hh⟩
      · cases hc : s.threads with
        | none => simp [Option.getD]
        | some c => rw [hc] at h5; simpa using fun hh => h5 ⟨rfl, hh⟩
      · cases hc : s.nodes with
        | none => simp [Option.getD]
        | some c => rw [hc] at h6; simpa using fun hh => h6 ⟨rfl, hh⟩
      · cases hc : s.dies with
        | none => simp [Option.getD]
        | some c => rw [hc] at h7; simpa using fun hh => h7 ⟨rfl, hh⟩
      · cases hc : s.packages with
        | none => simp [Option.getD]
        | some c => rw [hc] at h8; simpa using fun hh => h8 ⟨rfl, hh⟩
      · cases hc : s.cpusPresent with
        | none => simp [Option.getD]
        | some c => rw [hc] at h9; simpa using fun hh => h9 ⟨rfl, hh⟩
  · rintro ⟨k0, k1, k2, k3, k4, k5, k6, k7, k8, k9⟩
    unfold checkSpec
    rw [if_neg (by simpa using k0), if_neg (by simp [k1]), if_neg (by simp [k2]),
        if_neg (by rintro ⟨_, hh⟩; exact hh k3),
        if_neg (by rintro ⟨_, hh⟩; exact hh k4),
        if_neg (by rintro ⟨_, hh⟩; exact hh k5),
        if_neg (by rintro ⟨_, hh⟩; exact hh k6),
        if_neg (by rintro ⟨_, hh⟩; exact hh k7),
        if_neg (by rintro ⟨_, hh⟩; exact hh k8),
        if_neg k9]

/-- A successful checkSpec implies the mem and nvmem values are "0" or
    parseable gigabyte sizes. -/
theorem checkSpec_sizes (s : NumaSpec) (h : checkSpec s = .ok ()) :
    ∀ v : String, (s.mem = some v ∨ s.nvmem = some v) →
      v = "0" ∨ isOk (siadd v "0G") = true := by
  intro v hv
  obtain ⟨-, h1, h2, -⟩ := (checkSpec_ok_iff s).mp h
  have hval : sizeValueOK v = true := by
    rcases hv with hm | hm
    · rw [hm] at h1; exact h1
    · rw [hm] at h2; exact h2
  unfold sizeValueOK at hval
  rcases Bool.or_eq_true_iff.mp hval with h | h
  · exact Or.inl (by simpa using h)
  · exact Or.inr h

/-- C9 (amended): when validation succeeds, every mem and nvmem value of
    every group was either the literal "0" or parseable by the gigabyte
    size adder; conversely any group list containing an unparseable size is
    rejected by validate, which runs before any allocation. -/
theorem c9_validate_sizes_parseable (nl : List NumaSpec)
    (h : validate nl = .ok ()) :
    ∀ s ∈ nl, ∀ v : String,
      (s.mem = some v ∨ s.nvmem = some v) →
      v = "0" ∨ isOk (siadd v "0G") = true := by
  intro s hs
  exact checkSpec_sizes s (validate_ok_of_mem nl h s hs)

/-- Input for the C9 witness. -/
def c9wInput : List NumaSpec := [{ mem := some "2G", nvmem := some "0" }]

/-- Witness for C9 at a concrete validated input. -/
theorem c9_witness :
    validate c9wInput = .ok () ∧
    (("2G" : String) = "0" ∨ isOk (siadd "2G" "0G") = true) :=
  ⟨rfl, c9_validate_sizes_parseable c9wInput rfl _ (List.mem_cons_self _ _)
    "2G" (Or.inl rfl)⟩

/-- A successful Except value is ok for some result. -/
theorem isOk_iff_exists {ε α : Type} (e : Except ε α) :
    isOk e = true ↔ ∃ a, e = .ok a := by
  cases e with
  | ok a => simp [isOk]
  | error e => simp [isOk]

/-- Relation transport along a successful repeatE run. -/
theorem repeatE_rel {σ : Type} (f : σ → Except String σ) (R : σ → σ → Prop)
    (hrefl : ∀ a, R a a) (htrans : ∀ a b c, R a b → R b c → R a c)
    (hf : ∀ a a', f a = .ok a' → R a a') :
    ∀ (n : Nat) (a a' : σ), repeatE f n a = .ok a' → R a a' := by
  intro n
  induction n with
  | zero => intro a a' h; cases h; exact hrefl a
  | succ k ih =>
      intro a a' h
      unfold repeatE at h
      cases hx : f a with
      | error e => rw [hx] at h; cases h
      | ok b => rw [hx] at h; exact htrans a b a' (hf a b hx) (ih b a' h)

/-- Additive effect of repeatE on an integer measure: if each successful
    step adds c, running n steps adds n * c. -/
theorem repeatE_add {σ : Type} (f : σ → Except String σ) (v : σ → Int) (c : Int)
    (hf : ∀ a a', f a = .ok a' → v a' = v a + c) :
    ∀ (n : Nat) (a a' : σ), repeatE f n a = .ok a' → v a' = v a + (n : Int) * c := by
  intro n
  induction n with
  | zero => intro a a' h; cases h; simp
  | succ k ih =>
      intro a a' h
      unfold repeatE at h
      cases hx : f a with
      | error e => rw [hx] at h; cases h
      | ok b =>
          rw [hx] at h
          have h1 := hf a b hx
          have h2 := ih b a' h
          rw [h2, h1]
          push_cast
          ring

/-- The fields of the main loop state preserved by one mem loop iteration:
    the CPU counter, the thread count and the recorded group list. -/
theorem memIter_frame (g : GroupCtx) (acc acc' : MainState × List String)
    (hp : memIter g acc = .ok acc') :
    acc'.1.lastcpu = acc.1.lastcpu ∧ acc'.1.threadcount = acc.1.threadcount ∧
    acc'.1.numalistWithDist = acc.1.numalistWithDist := by
  obtain ⟨st, cur⟩ := acc
  unfold memIter at hp
  dsimp only at hp
  split at hp
  · cases hp
  next st1 cur1 heq =>
    split at hp
    · cases hp
    next tm htm =>
      obtain rfl := Except.ok.inj hp
      split at heq
      · cases Except.ok.inj heq
        simp
      · split at heq
        · split at heq
          · cases heq
          next pm hpm =>
            cases Except.ok.inj heq
            simp
        · split at heq
          · split at heq
            · cases heq
            next um hum =>
              cases Except.ok.inj heq
              simp
          · cases heq

/-- The same preserved fields for one nvmem loop iteration. -/
theorem nvmemIter_frame (g : GroupCtx) (acc acc' : MainState × List String)
    (hp : nvmemIter g acc = .ok acc') :
    acc'.1.lastcpu = acc.1.lastcpu ∧ acc'.1.threadcount = acc.1.threadcount ∧
    acc'.1.numalistWithDist = acc.1.numalistWithDist := by
  obtain ⟨st, cur⟩ := acc
  unfold nvmemIter at hp
  dsimp only at hp
  split at hp
  · cases hp
  next st1 cur1 heq =>
    split at hp
    · cases hp
    next tm htm =>
      obtain rfl := Except.ok.inj hp
      by_cases h0 : st.lastnvmem + 1 = 0 <;>
        [rw [if_pos h0] at heq; rw [if_neg h0] at heq] <;>
      · split at heq
        · cases Except.ok.inj heq
          simp
        · split at heq
          · split at heq
            · cases heq
            next pm hpm =>
              cases Except.ok.inj heq
              simp
          · split at heq
            · split at heq
              · cases heq
              next um hum =>
                cases Except.ok.inj heq
                simp
            · cases heq

/-- The preserved-fields relation threaded through the mem and nvmem loops. -/
def frame3 (a a' : MainState × List String) : Prop :=
  a'.1.lastcpu = a.1.lastcpu ∧ a'.1.threadcount = a.1.threadcount ∧
  a'.1.numalistWithDist = a.1.numalistWithDist

/-- frame3 is reflexive. -/
theorem frame3_refl (a : MainState × List String) : frame3 a a := ⟨rfl, rfl, rfl⟩

/-- frame3 is transitive. -/
theorem frame3_trans (a b c : MainState × List String) :
    frame3 a b → frame3 b c → frame3 a c :=
  fun h1 h2 => ⟨h2.1.trans h1.1, h2.2.1.trans h1.2.1, h2.2.2.trans h1.2.2⟩

/-- frame3 transported through the whole mem loop. -/
theorem repeatE_memIter_frame (g : GroupCtx) (n : Nat)
    (a a' : MainState × List String) (h : repeatE (memIter g) n a = .ok a') :
    frame3 a a' :=
  repeatE_rel (memIter g) frame3 frame3_refl frame3_trans
    (fun x x' hx => memIter_frame g x x' hx) n a a' h

/-- frame3 transported through the whole nvmem loop. -/
theorem repeatE_nvmemIter_frame (g : GroupCtx) (n : Nat)
    (a a' : MainState × List String) (h : repeatE (nvmemIter g) n a = .ok a') :
    frame3 a a' :=
  repeatE_rel (nvmemIter g) frame3 frame3_refl frame3_trans
    (fun x x' hx => nvmemIter_frame g x x' hx) n a a' h

/-- Effect of one node loop iteration: the CPU counter grows by cpucount
    when the group has CPUs; thread count and recorded group list are
    unchanged. -/
theorem nodeBody_effect (g : GroupCtx) (st st' : MainState)
    (hp : nodeBody g st = .ok st') :
    st'.lastcpu = st.lastcpu + (if g.cpucount > 0 then g.cpucount else 0) ∧
    st'.threadcount = st.threadcount ∧
    st'.numalistWithDist = st.numalistWithDist := by
  unfold nodeBody at hp
  dsimp only at hp
  split at hp
  · cases hp
  next st1 cur1 heq1 =>
    split at hp
    · cases hp
    next st2 cur2 heq2 =>
      obtain ⟨a1, a2, a3⟩ := repeatE_memIter_frame g g.memcount _ _ heq1
      obtain ⟨b1, b2, b3⟩ := repeatE_nvmemIter_frame g g.nvmemcount _ _ heq2
      dsimp only at a1 a2 a3 b1 b2 b3
      by_cases hcpu : g.cpucount > 0
      · rw [if_pos hcpu] at hp
        dsimp only at hp
        obtain rfl := Except.ok.inj hp
        rw [if_pos hcpu]
        split
        · exact ⟨by simp; omega, by simp [b2, a2], by simp [b3, a3]⟩
        · exact ⟨by simp; omega, by simp [b2, a2], by simp [b3, a3]⟩
      · rw [if_neg hcpu] at hp
        dsimp only at hp
        obtain rfl := Except.ok.inj hp
        rw [if_neg hcpu]
        exact ⟨by simp; omega, by simp [b2, a2], by simp [b3, a3]⟩

/-- Aggregate effect of a run of node loop iterations. -/
theorem repeatE_nodeBody_effect (g : GroupCtx) (n : Nat) (a a' : MainState)
    (hp : repeatE (nodeBody g) n a = .ok a') :
    a'.lastcpu = a.lastcpu +
      (n : Int) * (if g.cpucount > 0 then g.cpucount else 0) ∧
    a'.threadcount = a.threadcount ∧
    a'.numalistWithDist = a.numalistWithDist := by
  refine ⟨?_, ?_⟩
  · exact repeatE_add (nodeBody g) (fun x => x.lastcpu) _
      (fun x x' h => (nodeBody_effect g x x' h).1) n a a' hp
  · exact repeatE_rel (nodeBody g)
      (fun x x' => x'.threadcount = x.threadcount ∧
        x'.numalistWithDist = x.numalistWithDist)
      (fun x => ⟨rfl, rfl⟩)
      (fun x y z h1 h2 => ⟨h2.1.trans h1.1, h2.2.trans h1.2⟩)
      (fun x x' h => ⟨(nodeBody_effect g x x' h).2.1,
        (nodeBody_effect g x x' h).2.2⟩) n a a' hp

/-- Effect of one die loop iteration on the tracked fields. -/
theorem dieBody_effect (g : GroupCtx) (st st' : MainState)
    (hp : dieBody g st = .ok st') :
    st'.lastcpu = st.lastcpu +
      (g.nodecount.toNat : Int) * (if g.cpucount > 0 then g.cpucount else 0) ∧
    st'.threadcount = st.threadcount ∧
    st'.numalistWithDist = st.numalistWithDist := by
  unfold dieBody at hp
  dsimp only at hp
  by_cases hnc : g.nodecount > 0 ∧ g.cpucount > 0
  · rw [if_pos hnc] at hp
    obtain ⟨h1, h2, h3⟩ := repeatE_nodeBody_effect g g.nodecount.toNat _ st' hp
    dsimp only at h1 h2 h3
    exact ⟨h1, h2, h3⟩
  · rw [if_neg hnc] at hp
    exact repeatE_nodeBody_effect g g.nodecount.toNat _ st' hp

/-- Aggregate effect of a run of die loop iterations. -/
theorem repeatE_dieBody_effect (g : GroupCtx) (n : Nat) (a a' : MainState)
    (hp : repeatE (dieBody g) n a = .ok a') :
    a'.lastcpu = a.lastcpu +
      (n : Int) * ((g.nodecount.toNat : Int) *
        (if g.cpucount > 0 then g.cpucount else 0)) ∧
    a'.threadcount = a.threadcount ∧
    a'.numalistWithDist = a.numalistWithDist := by
  refine ⟨?_, ?_⟩
  · exact repeatE_add (dieBody g) (fun x => x.lastcpu) _
      (fun x x' h => (dieBody_effect g x x' h).1) n a a' hp
  · exact repeatE_rel (dieBody g)
      (fun x x' => x'.threadcount = x.threadcount ∧
        x'.numalistWithDist = x.numalistWithDist)
      (fun x => ⟨rfl, rfl⟩)
      (fun x y z h1 h2 => ⟨h2.1.trans h1.1, h2.2.trans h1.2⟩)
      (fun x x' h => ⟨(dieBody_effect g x x' h).2.1,
        (dieBody_effect g x x' h).2.2⟩) n a a' hp

/-- Effect of one package loop iteration on the tracked fields. -/
theorem packageBody_effect (g : GroupCtx) (st st' : MainState)
    (hp : packageBody g st = .ok st') :
    st'.lastcpu = st.lastcpu +
      (g.diecount.toNat : Int) *
        ((g.nodecount.toNat : Int) * (if g.cpucount > 0 then g.cpucount else 0)) ∧
    st'.threadcount = st.threadcount ∧
    st'.numalistWithDist = st.numalistWithDist := by
  unfold packageBody at hp
  dsimp only at hp
  by_cases hnc : g.nodecount > 0 ∧ g.cpucount > 0
  · rw [if_pos hnc] at hp
    obtain ⟨h1, h2, h3⟩ := repeatE_dieBody_effect g g.diecount.toNat _ st' hp
    dsimp only at h1 h2 h3
    exact ⟨h1, h2, h3⟩
  · rw [if_neg hnc] at hp
    exact repeatE_dieBody_effect g g.diecount.toNat _ st' hp

/-- Aggregate effect of a run of package loop iterations. -/
theorem repeatE_packageBody_effect (g : GroupCtx) (n : Nat) (a a' : MainState)
    (hp : repeatE (packageBody g) n a = .ok a') :
    a'.lastcpu = a.lastcpu +
      (n : Int) * ((g.diecount.toNat : Int) * ((g.nodecount.toNat : Int) *
        (if g.cpucount > 0 then g.cpucount else 0))) ∧
    a'.threadcount = a.threadcount ∧
    a'.numalistWithDist = a.numalistWithDist := by
  refine ⟨?_, ?_⟩
  · exact repeatE_add (packageBody g) (fun x => x.lastcpu) _
      (fun x x' h => (packageBody_effect g x x' h).1) n a a' hp
  · exact repeatE_rel (packageBody g)
      (fun x x' => x'.threadcount = x.threadcount ∧
        x'.numalistWithDist = x.numalistWithDist)
      (fun x => ⟨rfl, rfl⟩)
      (fun x y z h1 h2 => ⟨h2.1.trans h1.1, h2.2.trans h1.2⟩)
      (fun x x' h => ⟨(packageBody_effect g x x' h).2.1,
        (packageBody_effect g x x' h).2.2⟩) n a a' hp

/-- The thread count after processing one NUMA group, as a function of the
    previous running value: the first CPU-bearing group fixes it. -/
def newTc (tc : Int) (spec : NumaSpec) : Int :=
  if spec.cores.getD 0 > 0 ∧ tc < 0 then spec.threads.getD 2 else tc

/-- The amount one NUMA group adds to the running CPU counter of qemuopts. -/
def groupCpuAdd (tc : Int) (spec : NumaSpec) : Int :=
  ((spec.packages.getD 1).toNat : Int) *
    (((spec.dies.getD 1).toNat : Int) *
      (((spec.nodes.getD 1).toNat : Int) *
        (if spec.cores.getD 0 * newTc tc spec > 0 then
          spec.cores.getD 0 * newTc tc spec else 0)))

/-- Effect of the NUMA-group branch on the tracked fields. -/
theorem numaGroup_effect (st st' : MainState) (i : Nat) (spec : NumaSpec)
    (hp : numaGroup st i spec = .ok st') :
    st'.threadcount = newTc st.threadcount spec ∧
    st'.lastcpu = st.lastcpu + groupCpuAdd st.threadcount spec ∧
    st'.numalistWithDist = st.numalistWithDist ++ [spec] := by
  unfold numaGroup at hp
  dsimp only at hp
  split at hp
  · cases hp
  next stT heqT =>
    have hfacts : stT.threadcount = newTc st.threadcount spec ∧
        stT.lastcpu = st.lastcpu ∧
        stT.numalistWithDist = st.numalistWithDist ++ [spec] := by
      unfold newTc
      split at heqT
      next hc =>
        split at heqT
        next htc =>
          cases Except.ok.inj heqT
          rw [if_pos ⟨hc, htc⟩]
          exact ⟨rfl, rfl, rfl⟩
        next htc =>
          split at heqT
          next t hthr =>
            split at heqT
            · cases heqT
            · cases Except.ok.inj heqT
              rw [if_neg (fun hh => htc hh.2)]
              exact ⟨rfl, rfl, rfl⟩
          next hthr =>
            cases Except.ok.inj heqT
            rw [if_neg (fun hh => htc hh.2)]
            exact ⟨rfl, rfl, rfl⟩
      next hc =>
        cases Except.ok.inj heqT
        rw [if_neg (fun hh => hc hh.1)]
        exact ⟨rfl, rfl, rfl⟩
    obtain ⟨f1, f2, f3⟩ := hfacts
    obtain ⟨hadd, hrel1, hrel2⟩ := repeatE_packageBody_effect _ _ _ st' hp
    dsimp only at hadd hrel1 hrel2
    refine ⟨hrel1.trans f1, ?_, hrel2.trans f3⟩
    rw [hadd, f2, f1]
    unfold groupCpuAdd
    dsimp only

/-- On the truthy CXL branch the main counters are untouched, the entry has
    no other keys and the CXL builder succeeded. -/
theorem processGroup_cxl_effect (st st' : MainState) (i : Nat) (spec : NumaSpec)
    (htr : truthyCxl spec = true) (hp : processGroup st (i, spec) = .ok st') :
    st'.threadcount = st.threadcount ∧ st'.lastcpu = st.lastcpu ∧
    st'.numalistWithDist = st.numalistWithDist ∧
    hasKeysBesidesCxl spec = false ∧
    ∀ l, spec.cxl = some l → ∃ r, qemucxlopts l = .ok r := by
  unfold processGroup at hp
  dsimp only at hp
  rw [htr] at hp
  rw [if_pos rfl] at hp
  cases hcxl : spec.cxl with
  | none => unfold truthyCxl at htr; rw [hcxl] at htr; cases htr
  | some l =>
      rw [hcxl] at hp
      dsimp only at hp
      cases hk : hasKeysBesidesCxl spec with
      | true => rw [hk, if_pos rfl] at hp; cases hp
      | false =>
          rw [hk] at hp
          rw [if_neg (by simp)] at hp
          cases hq : qemucxlopts l with
          | error e => rw [hq] at hp; cases hp
          | ok r =>
              rw [hq] at hp
              dsimp only at hp
              refine ⟨?_, ?_, ?_, rfl, ?_⟩
              all_goals
                first
                | (intro l2 hl2
                   cases Option.some.inj hl2
                   exact ⟨r, hq⟩)
                | (split at hp
                   · obtain rfl := Except.ok.inj hp
                     split <;> simp
                   · obtain rfl := Except.ok.inj hp
                     simp)

/-- On the non-truthy branch processGroup is the NUMA-group branch. -/
theorem processGroup_numa (st st' : MainState) (i : Nat) (spec : NumaSpec)
    (htr : truthyCxl spec = false) (hp : processGroup st (i, spec) = .ok st') :
    numaGroup st i spec = .ok st' := by
  unfold processGroup at hp
  dsimp only at hp
  rw [htr] at hp
  simpa using hp

/-- The thread count update of one main loop iteration. -/
def stepTc (tc : Int) (spec : NumaSpec) : Int :=
  if truthyCxl spec then tc else newTc tc spec

/-- The CPU counter increment of one main loop iteration. -/
def stepAdd (tc : Int) (spec : NumaSpec) : Int :=
  if truthyCxl spec then 0 else groupCpuAdd tc spec

/-- The running thread count after a list of groups. -/
def tcFold : Int → List NumaSpec → Int
  | tc, [] => tc
  | tc, s :: rest => tcFold (stepTc tc s) rest

/-- The total CPU counter increment of a list of groups. -/
def cpuAddFold : Int → List NumaSpec → Int
  | _, [] => 0
  | tc, s :: rest => stepAdd tc s + cpuAddFold (stepTc tc s) rest

/-- Main loop invariant: the final thread count, CPU counter and recorded
    NUMA group list as functions of the input list. -/
theorem mainLoop_effect :
    ∀ (l : List (Nat × NumaSpec)) (st st' : MainState),
    l.foldlM processGroup st = .ok st' →
    st'.threadcount = tcFold st.threadcount (l.map Prod.snd) ∧
    st'.lastcpu = st.lastcpu + cpuAddFold st.threadcount (l.map Prod.snd) ∧
    st'.numalistWithDist = st.numalistWithDist ++
      (l.map Prod.snd).filter (fun s => !truthyCxl s) := by
  intro l
  induction l with
  | nil =>
      intro st st' h
      cases h
      exact ⟨rfl, by simp [cpuAddFold], by simp⟩
  | cons x xs ih =>
      intro st st' h
      rw [List.foldlM_cons] at h
      cases hx : processGroup st x with
      | error e => rw [hx, exceptBind_err] at h; cases h
      | ok t =>
          rw [hx, exceptBind_ok] at h
          obtain ⟨i1, i2, i3⟩ := ih t st' h
          obtain ⟨x1, x2⟩ := x
          cases htr : truthyCxl x2 with
          | true =>
              obtain ⟨e1, e2, e3, e4, e5⟩ :=
                processGroup_cxl_effect st t x1 x2 htr hx
              refine ⟨?_, ?_, ?_⟩
              · rw [i1, e1]
                simp [tcFold, stepTc, htr]
              · rw [i2, e2, e1]
                simp [cpuAddFold, stepAdd, stepTc, htr]
              · rw [i3, e3]
                simp [htr]
          | false =>
              obtain ⟨e1, e2, e3⟩ :=
                numaGroup_effect st t x1 x2 (processGroup_numa st t x1 x2 htr hx)
              refine ⟨?_, ?_, ?_⟩
              · rw [i1, e1]
                simp [tcFold, stepTc, htr]
              · rw [i2, e2, e1]
                simp [cpuAddFold, stepAdd, stepTc, htr]
                ring
              · rw [i3, e3]
                simp [htr]

/-- Decomposition of a successful qemuopts run into its three phases. -/
theorem qemuopts_ok_parts (nl : List NumaSpec) (r : QemuResult)
    (h : qemuopts nl = .ok r) :
    validate nl = .ok () ∧
    ∃ st, nl.enum.foldlM processGroup ({} : MainState) = .ok st ∧
      qemuoptsAssemble st = .ok r := by
  unfold qemuopts at h
  cases hv : validate nl with
  | error e => rw [hv] at h; cases h
  | ok u =>
      cases u
      rw [hv] at h
      cases hf : nl.enum.foldlM processGroup ({} : MainState) with
      | error e => rw [hf] at h; cases h
      | ok st => rw [hf] at h; exact ⟨rfl, st, rfl, h⟩

/-- A successful assembly implies the distance computation succeeded and
    exposes how the emitted maxcpus value is derived from the CPU counter. -/
theorem assemble_ok_parts (st : MainState) (r : QemuResult)
    (h : qemuoptsAssemble st = .ok r) :
    (∃ dd, dists st.numalistWithDist = .ok dd) ∧ r.maxcpus = st.lastcpu + 1 := by
  unfold qemuoptsAssemble at h
  cases hd : dists st.numalistWithDist with
  | error e => rw [hd] at h; cases h
  | ok dd =>
      rw [hd] at h
      dsimp only at h
      refine ⟨⟨dd, rfl⟩, ?_⟩
      split at h
      · cases h
      split at h
      · cases h
      split at h
      · cases h
      split at h
      · cases h
      split at h
      · cases h
      split at h
      · cases h
      split at h
      · split at h
        · cases h
        · cases h
      · obtain rfl := Except.ok.inj h
        simp

/-- Facts about every truthy-CXL entry of a successfully compiled list: no
    other keys, and its CXL forest built fine. -/
theorem qemuopts_ok_truthy (nl : List NumaSpec) (r : QemuResult)
    (h : qemuopts nl = .ok r) :
    ∀ s ∈ nl, truthyCxl s = true →
      hasKeysBesidesCxl s = false ∧
      ∀ l, s.cxl = some l → ∃ cr, qemucxlopts l = .ok cr := by
  obtain ⟨hv, st, hfold, hasm⟩ := qemuopts_ok_parts nl r h
  intro s hs htr
  obtain ⟨i, hi⟩ := exists_mem_enumFrom s nl 0 hs
  obtain ⟨t, t', hp⟩ :=
    foldlM_ok_of_mem processGroup nl.enum {} st hfold (i, s) hi
  obtain ⟨-, -, -, hk, hq⟩ := processGroup_cxl_effect t t' i s htr hp
  exact ⟨hk, hq⟩

/-- C4 (amended): on every input that compiles, an entry whose cxl value is
    truthy (a nonempty list) carries no key besides cxl; equivalently, a
    truthy cxl entry with another key makes compilation fail. -/
theorem c4_truthy_cxl_exclusive (nl : List NumaSpec)
    (h : isOk (qemuopts nl) = true) :
    ∀ s ∈ nl, truthyCxl s = true → hasKeysBesidesCxl s = false := by
  obtain ⟨r, hr⟩ := (isOk_iff_exists _).mp h
  intro s hs htr
  exact (qemuopts_ok_truthy nl r hr s hs htr).1

/-- The truthy CXL entry of the C4 witness input. -/
def c4wEntry : NumaSpec := { cxl := some [[.mk (some "256M") none none]] }

/-- Input for the C4 witness. -/
def c4wInput : List NumaSpec :=
  [c4wEntry, { cores := some 1, mem := some "1G" }]

/-- Witness for C4 at a concrete compiled input. -/
theorem c4_witness :
    isOk (qemuopts c4wInput) = true ∧ truthyCxl c4wEntry = true ∧
    hasKeysBesidesCxl c4wEntry = false :=
  ⟨rfl, rfl,
    c4_truthy_cxl_exclusive c4wInput rfl c4wEntry (List.mem_cons_self _ _) rfl⟩

/-- An entry with no key besides cxl has no cores key. -/
theorem noKeys_cores_none (s : NumaSpec) (hk : hasKeysBesidesCxl s = false) :
    s.cores = none := by
  cases hc : s.cores with
  | none => rfl
  | some c =>
      unfold hasKeysBesidesCxl at hk
      rw [hc] at hk
      simp at hk

/-- The enumeration of a list projects back to the list. -/
theorem enumFrom_map_snd {α : Type} :
    ∀ (n : Nat) (l : List α), (l.enumFrom n).map Prod.snd = l := by
  intro n l
  induction l generalizing n with
  | nil => rfl
  | cons x xs ih => simp [List.enumFrom, ih]

/-- The same fact for List.enum. -/
theorem enum_map_snd {α : Type} (l : List α) : l.enum.map Prod.snd = l :=
  enumFrom_map_snd 0 l

/-- For a positive running thread count the code increment of each group
    equals the claimed per-group product. -/
theorem cpuAddFold_pos (l : List NumaSpec) :
    ∀ tc : Int, 0 < tc →
    (∀ s ∈ l, checkSpec s = .ok ()) →
    (∀ s ∈ l, truthyCxl s = true → s.cores = none) →
    cpuAddFold tc l = specCpuSumWith tc l := by
  induction l with
  | nil => intro tc _ _ _; rfl
  | cons s rest ih =>
      intro tc htc hcheck htruthy
      have hrest := ih tc htc (fun x hx => hcheck x (List.mem_cons_of_mem s hx))
        (fun x hx => htruthy x (List.mem_cons_of_mem s hx))
      obtain ⟨k0, k1, k2, k3, k4, k5, k6, k7, k8, k9⟩ :=
        (checkSpec_ok_iff s).mp (hcheck s (List.mem_cons_self s rest))
      have hnt : newTc tc s = tc := by
        unfold newTc
        rw [if_neg]
        rintro ⟨-, h2⟩
        omega
      unfold cpuAddFold specCpuSumWith stepAdd stepTc
      by_cases htr : truthyCxl s = true
      · have hcn := htruthy s (List.mem_cons_self s rest) htr
        rw [if_pos htr, if_pos htr, hrest, hcn]
        simp
      · have htr' : truthyCxl s = false := by simpa using htr
        rw [if_neg htr, if_neg htr, hnt, hrest]
        by_cases hcp : s.cores.getD 0 > 0
        · rw [if_pos hcp]
          unfold groupCpuAdd
          rw [hnt]
          rw [if_pos (by positivity)]
          rw [Int.toNat_of_nonneg (by omega), Int.toNat_of_nonneg (by omega),
              Int.toNat_of_nonneg (by omega)]
          ring
        · rw [if_neg hcp]
          have hz : s.cores.getD 0 = 0 := by omega
          unfold groupCpuAdd
          rw [hnt, hz]
          simp

/-- Starting from the unset thread count, the code total equals the claimed
    sum with the effective thread count. -/
theorem cpuAddFold_start (l : List NumaSpec)
    (hcheck : ∀ s ∈ l, checkSpec s = .ok ())
    (htruthy : ∀ s ∈ l, truthyCxl s = true → s.cores = none) :
    cpuAddFold (-1) l = specCpuSumWith (effThreads l) l := by
  induction l with
  | nil => rfl
  | cons s rest ih =>
      have hrest0 : ∀ x ∈ rest, checkSpec x = .ok () :=
        fun x hx => hcheck x (List.mem_cons_of_mem s hx)
      have hrest1 : ∀ x ∈ rest, truthyCxl x = true → x.cores = none :=
        fun x hx => htruthy x (List.mem_cons_of_mem s hx)
      obtain ⟨k0, k1, k2, k3, k4, k5, k6, k7, k8, k9⟩ :=
        (checkSpec_ok_iff s).mp (hcheck s (List.mem_cons_self s rest))
      unfold cpuAddFold specCpuSumWith stepAdd stepTc
      by_cases htr : truthyCxl s = true
      · have hcn := htruthy s (List.mem_cons_self s rest) htr
        have heff : effThreads (s :: rest) = effThreads rest := by
          unfold effThreads
          rw [List.find?_cons_of_neg _ (by simp [hcn])]
        rw [if_pos htr, if_pos htr, heff, ih hrest0 hrest1, hcn]
        simp
      · have htr' : truthyCxl s = false := by simpa using htr
        rw [if_neg htr, if_neg htr]
        by_cases hcp : s.cores.getD 0 > 0
        · have hnt : newTc (-1) s = s.threads.getD 2 := by
            unfold newTc
            rw [if_pos ⟨hcp, by omega⟩]
          have heff : effThreads (s :: rest) = s.threads.getD 2 := by
            unfold effThreads
            rw [List.find?_cons_of_pos _ (by simpa using hcp)]
          rw [heff, if_pos hcp, hnt]
          rw [cpuAddFold_pos rest _ k4 hrest0 hrest1]
          unfold groupCpuAdd
          rw [hnt, if_pos (by positivity)]
          rw [Int.toNat_of_nonneg (by omega), Int.toNat_of_nonneg (by omega),
              Int.toNat_of_nonneg (by omega)]
          ring
        · have hz : s.cores.getD 0 = 0 := by omega
          have hnt : newTc (-1) s = -1 := by
            unfold newTc
            rw [if_neg (fun hh => hcp hh.1)]
          have heff : effThreads (s :: rest) = effThreads rest := by
            unfold effThreads
            rw [List.find?_cons_of_neg _ (by simp [hz])]
          rw [heff, if_neg hcp, hnt, ih hrest0 hrest1]
          unfold groupCpuAdd
          rw [hnt, hz]
          simp

/-- C5: on every input that compiles, the maxcpus value of the emitted -smp
    summary equals the sum over CPU-bearing groups (cores > 0) of
    cores x threads x dies x packages x nodes, with the effective thread
    count fixed by the first CPU-bearing group. -/
theorem c5_maxcpus_sum (nl : List NumaSpec)
    (h : isOk (qemuopts nl) = true) :
    maxcpusOf nl = some (specCpuSum nl) := by
  obtain ⟨r, hr⟩ := (isOk_iff_exists _).mp h
  obtain ⟨hv, st, hfold, hasm⟩ := qemuopts_ok_parts nl r hr
  obtain ⟨-, hmax⟩ := assemble_ok_parts st r hasm
  obtain ⟨-, hlc, -⟩ := mainLoop_effect nl.enum {} st hfold
  have hmap : nl.enum.map Prod.snd = nl := enumFrom_map_snd 0 nl
  rw [hmap] at hlc
  have htruthy : ∀ s ∈ nl, truthyCxl s = true → s.cores = none :=
    fun s hs htr => noKeys_cores_none s (qemuopts_ok_truthy nl r hr s hs htr).1
  have hcheck : ∀ s ∈ nl, checkSpec s = .ok () :=
    fun s hs => validate_ok_of_mem nl hv s hs
  unfold maxcpusOf
  rw [hr]
  dsimp only
  dsimp only at hlc
  congr 1
  rw [hmax, hlc, cpuAddFold_start nl hcheck htruthy]
  unfold specCpuSum
  ring

/-- Input for the C5 witness: the scenario of one group with two cores, two
    threads and 4G memory. -/
def c5wInput : List NumaSpec :=
  [{ cores := some 2, threads := some 2, mem := some "4G" }]

/-- Witness for C5: the concrete scenario compiles, the theorem applies and
    the claimed sum evaluates to 4. -/
theorem c5_witness :
    isOk (qemuopts c5wInput) = true ∧
    maxcpusOf c5wInput = some (specCpuSum c5wInput) ∧
    specCpuSum c5wInput = 4 :=
  ⟨rfl, c5_maxcpus_sum c5wInput rfl, rfl⟩

/-- A successful dists run forces the supplied dist-all matrix (when there
    is one) to have exactly the total node count as its row count and as
    every row length. -/
theorem dists_ok_dims (nl' : List NumaSpec) (dd : DistDict)
    (m : List (List Int)) (h : dists nl' = .ok dd)
    (hm : (distsPass1 nl').distMatrix = some m) :
    m.length = numDistNodes nl' ∧
    ∀ row ∈ m, row.length = numDistNodes nl' := by
  unfold dists at h
  dsimp only at h
  split at h
  · cases h
  next hn =>
    rw [hm] at h
    dsimp only at h
    rw [Int.sub_add_cancel] at h
    split at h
    · cases h
    next hlen =>
      push_neg at hlen
      refine ⟨hlen, ?_⟩
      intro row hrow
      split at h
      next dd' heq =>
        obtain ⟨i, hi⟩ := exists_mem_enumFrom row m 0 hrow
        obtain ⟨t, t', hp⟩ := foldlM_ok_of_mem _ m.enum _ _ heq (i, row) hi
        dsimp only at hp
        split at hp
        · cases hp
        next hne =>
          push_neg at hne
          exact hne
      next e heq => cases h

/-- The group list recorded by the main loop for the later distance
    computation is exactly the list of non-truthy-CXL entries. -/
theorem qemuopts_ok_numalist (nl : List NumaSpec) (st : MainState)
    (hfold : nl.enum.foldlM processGroup ({} : MainState) = .ok st) :
    st.numalistWithDist = nonCxlGroups nl := by
  obtain ⟨-, -, hnld⟩ := mainLoop_effect nl.enum {} st hfold
  rw [enum_map_snd nl] at hnld
  rw [hnld]
  rfl

/-- C8: on every input that compiles, a supplied dist-all matrix (the last
    one given, recorded by the first pass over the non-CXL groups) has
    exactly the total compiled node count as its row count and as every row
    length; contrapositively a mismatched dist-all makes compilation fail
    and produce no output. -/
theorem c8_distall_dimension_check (nl : List NumaSpec)
    (h : isOk (qemuopts nl) = true) :
    ∀ m, (distsPass1 (nonCxlGroups nl)).distMatrix = some m →
      m.length = numDistNodes (nonCxlGroups nl) ∧
      ∀ row ∈ m, row.length = numDistNodes (nonCxlGroups nl) := by
  intro m hm
  obtain ⟨r, hr⟩ := (isOk_iff_exists _).mp h
  obtain ⟨hv, st, hfold, hasm⟩ := qemuopts_ok_parts nl r hr
  obtain ⟨⟨dd, hdd⟩, -⟩ := assemble_ok_parts st r hasm
  rw [qemuopts_ok_numalist nl st hfold] at hdd
  exact dists_ok_dims _ dd m hdd hm

/-- Input for the C8 witness: two nodes with a well-sized dist-all matrix. -/
def c8wInput : List NumaSpec :=
  [{ cores := some 1, mem := some "1G", nodes := some 2,
     distAll := some [[10, 20], [20, 10]] }]

/-- Witness for C8 at a concrete compiled input with a dist-all matrix. -/
theorem c8_witness :
    isOk (qemuopts c8wInput) = true ∧
    (distsPass1 (nonCxlGroups c8wInput)).distMatrix = some [[10, 20], [20, 10]] ∧
    ([[10, 20], [20, 10]] : List (List Int)).length =
      numDistNodes (nonCxlGroups c8wInput) :=
  ⟨rfl, rfl,
    (c8_distall_dimension_check c8wInput rfl [[10, 20], [20, 10]] rfl).1⟩

/-- Size-bounded simultaneous induction: a successful switch walk implies
    every device reachable inside the switch is well shaped. -/
theorem cxlShapeAux : ∀ (fuel : Nat),
    (∀ (dev : CxlDevice) (st : CxlState) (bus : String) (st' : CxlState),
      sizeOf dev ≤ fuel → cxlswitchopts st dev bus = .ok st' →
      ∃ l, dev.sw = some l ∧ goodList l = true) ∧
    (∀ (devs : List CxlDevice) (st : CxlState) (i : Nat) (u : String)
      (st' : CxlState),
      sizeOf devs ≤ fuel → cxlDownList st devs i u = .ok st' →
      goodList devs = true) := by
  intro fuel
  induction fuel with
  | zero =>
      constructor
      · intro dev st bus st' hle hp
        cases dev with
        | mk m p sw => simp_arith at hle
      · intro devs st i u st' hle hp
        cases devs with
        | nil => simp_arith at hle
        | cons d rest => simp_arith at hle
  | succ k ih =>
      obtain ⟨ihS, ihL⟩ := ih
      constructor
      · intro dev st bus st' hle hp
        cases dev with
        | mk m p sw =>
          cases sw with
          | none => cases hp
          | some l =>
              refine ⟨l, rfl, ?_⟩
              unfold cxlswitchopts at hp
              dsimp only at hp
              refine ihL l _ 0 _ st' ?_ hp
              simp_arith at hle
              omega
      · intro devs st i u st' hle hp
        cases devs with
        | nil => rfl
        | cons d rest =>
            have hled : sizeOf d ≤ k := by simp_arith at hle; omega
            have hler : sizeOf rest ≤ k := by simp_arith at hle; omega
            cases d with
            | mk dm dp dsw =>
              unfold cxlDownList at hp
              simp only [CxlDevice.mem, CxlDevice.sw] at hp
              unfold goodList
              rw [Bool.and_eq_true]
              cases dm with
              | some sz =>
                  dsimp only at hp
                  split at hp
                  next st2 hmem =>
                    exact ⟨by simp [goodInSwitch], ihL rest _ _ _ st' hler hp⟩
                  next e herr => cases hp
              | none =>
                  cases dsw with
                  | some l2 =>
                      dsimp only at hp
                      split at hp
                      next st2 hswc =>
                        refine ⟨?_, ihL rest _ _ _ st' hler hp⟩
                        obtain ⟨l3, hl3, hgood⟩ :=
                          ihS (CxlDevice.mk none dp (some l2)) _ _ st2 hled hswc
                        simp only [CxlDevice.sw, Option.some.injEq] at hl3
                        rw [show goodInSwitch (CxlDevice.mk none dp (some l2)) =
                            goodList l2 from by simp [goodInSwitch], hl3]
                        exact hgood
                      next e herr => cases hp
                  | none =>
                      dsimp only at hp
                      cases hp

/-- A successful switch walk implies the switch list exists and is well
    shaped. -/
theorem cxlswitch_shape (dev : CxlDevice) (st : CxlState) (bus : String)
    (st' : CxlState) (hp : cxlswitchopts st dev bus = .ok st') :
    ∃ l, dev.sw = some l ∧ goodList l = true :=
  (cxlShapeAux (sizeOf dev)).1 dev st bus st' le_rfl hp

/-- A successful root port walk implies every attached device satisfies
    rootOK (shapeless devices allowed at the root port itself, but not
    inside switches). -/
theorem cxlRootPorts_shape :
    ∀ (ports : List CxlDevice) (st : CxlState) (i : Nat) (hb : String)
      (st' : CxlState), cxlRootPorts st ports i hb = .ok st' →
      ∀ d ∈ ports, rootOK d = true := by
  intro ports
  induction ports with
  | nil => intro st i hb st' hp d hd; cases hd
  | cons d0 rest ih =>
      intro st i hb st' hp d hd
      cases d0 with
      | mk dm dp dsw =>
        unfold cxlRootPorts at hp
        simp only [CxlDevice.mem, CxlDevice.sw] at hp
        rcases List.mem_cons.mp hd with rfl | hmem
        · cases dm with
          | some sz => simp [rootOK]
          | none =>
              cases dsw with
              | some l2 =>
                  dsimp only at hp
                  split at hp
                  next st2 hswc =>
                    obtain ⟨l3, hl3, hgood⟩ :=
                      cxlswitch_shape (CxlDevice.mk none dp (some l2)) _ _ st2 hswc
                    simp only [CxlDevice.sw, Option.some.injEq] at hl3
                    rw [show rootOK (CxlDevice.mk none dp (some l2)) =
                        goodList l2 from by simp [rootOK], hl3]
                    exact hgood
                  next e herr => cases hp
              | none => simp [rootOK]
        · cases dm with
          | some sz =>
              dsimp only at hp
              split at hp
              next st2 hok => exact ih st2 _ _ st' hp d hmem
              next e herr => cases hp
          | none =>
              cases dsw with
              | some l2 =>
                  dsimp only at hp
                  split at hp
                  next st2 hswc => exact ih st2 _ _ st' hp d hmem
                  next e herr => cases hp
              | none =>
                  dsimp only at hp
                  exact ih _ _ _ st' hp d hmem

/-- A successful host bridge walk implies every device at every root port
    satisfies rootOK. -/
theorem cxlBridges_shape :
    ∀ (bridges : List (List CxlDevice)) (st : CxlState) (i : Nat)
      (targets : List String) (out : CxlState × List String),
      cxlBridges st bridges i targets = .ok out →
      ∀ hb ∈ bridges, ∀ d ∈ hb, rootOK d = true := by
  intro bridges
  induction bridges with
  | nil => intro st i targets out hp hb hhb; cases hhb
  | cons ports rest ih =>
      intro st i targets out hp hb hhb
      unfold cxlBridges at hp
      dsimp only at hp
      split at hp
      next st2 hports =>
        rcases List.mem_cons.mp hhb with rfl | hmem
        · exact cxlRootPorts_shape hb _ 0 _ st2 hports
        · exact ih st2 _ _ out hp hb hmem
      next e herr => cases hp

/-- A successful CXL compilation implies every device of the forest
    satisfies rootOK. -/
theorem qemucxlopts_shape (f : List (List CxlDevice)) (r : CxlResult)
    (h : qemucxlopts f = .ok r) :
    ∀ hb ∈ f, ∀ d ∈ hb, rootOK d = true := by
  unfold qemucxlopts at h
  split at h
  · cases h
  next st targets heq => exact cxlBridges_shape f _ 0 [] (st, targets) heq

/-- C2 (amended): on every input that compiles, every CXL device entry
    reachable inside a switch has a mem or switch key (a shapeless device
    inside a switch fails compilation); a shapeless device attached
    directly to a root port is permitted by rootOK and skipped silently. -/
theorem c2_switch_shapeless_fails (nl : List NumaSpec)
    (h : isOk (qemuopts nl) = true) :
    ∀ s ∈ nl, ∀ l, s.cxl = some l → ∀ hb ∈ l, ∀ d ∈ hb, rootOK d = true := by
  intro s hs l hl hb hhb d hd
  obtain ⟨r, hr⟩ := (isOk_iff_exists _).mp h
  have htr : truthyCxl s = true := by
    unfold truthyCxl
    rw [hl]
    cases l with
    | nil => cases hhb
    | cons a b => simp
  obtain ⟨cr, hcr⟩ := (qemuopts_ok_truthy nl r hr s hs htr).2 l hl
  exact qemucxlopts_shape l cr hcr hb hhb d hd

/-- The switch device of the C2 witness input. -/
def c2wSwitch : CxlDevice := .mk none none (some [.mk (some "1G") none none])

/-- Input for the C2 witness: a compiled topology with a CXL switch. -/
def c2wInput : List NumaSpec :=
  [{ cores := some 1, mem := some "1G" }, { cxl := some [[c2wSwitch]] }]

/-- Witness for C2 at a concrete compiled input. -/
theorem c2_witness :
    isOk (qemuopts c2wInput) = true ∧ rootOK c2wSwitch = true :=
  ⟨rfl,
    c2_switch_shapeless_fails c2wInput rfl _
      (List.mem_cons_of_mem _ (List.mem_cons_self _ _)) [[c2wSwitch]] rfl
      [c2wSwitch] (List.mem_cons_self _ _) c2wSwitch (List.mem_cons_self _ _)⟩

/-- Equation lemma: empty device list requests no memory. -/
theorem specListMB_nil : specListMB [] = 0 := by
  conv_lhs => unfold specListMB

/-- Equation lemma: a device list requests its head plus its tail. -/
theorem specListMB_cons (d : CxlDevice) (rest : List CxlDevice) :
    specListMB (d :: rest) = specDeviceMB d + specListMB rest := by
  conv_lhs => unfold specListMB

/-- Equation lemma: a memory device requests its parsed size. -/
theorem specDeviceMB_mem (sz : String) (dp : Option Bool)
    (dsw : Option (List CxlDevice)) :
    specDeviceMB (.mk (some sz) dp dsw) = ((parseCxlSizeM sz).toOption).getD 0 := by
  conv_lhs => unfold specDeviceMB

/-- Equation lemma: a switch requests its subtree. -/
theorem specDeviceMB_switch (dp : Option Bool) (l : List CxlDevice) :
    specDeviceMB (.mk none dp (some l)) = specListMB l := by
  conv_lhs => unfold specDeviceMB

/-- Equation lemma: a shapeless device requests nothing. -/
theorem specDeviceMB_none (dp : Option Bool) :
    specDeviceMB (.mk none dp none) = 0 := by
  conv_lhs => unfold specDeviceMB

/-- The memory device emitter adds exactly the parsed requested size of its
    device to the running total. -/
theorem cxlmemopts_total (st : CxlState) (d : CxlDevice) (bus : String)
    (st' : CxlState) (hp : cxlmemopts st d bus = .ok st') :
    st'.totalMemSizeM = st.totalMemSizeM + specDeviceMB d := by
  cases d with
  | mk dm dp dsw =>
    unfold cxlmemopts at hp
    simp only [CxlDevice.mem, CxlDevice.present] at hp
    cases dm with
    | none => cases hp
    | some sz =>
        dsimp only at hp
        split at hp
        · cases hp
        next szM hparse =>
          obtain rfl := Except.ok.inj hp
          have hspec : specDeviceMB (CxlDevice.mk (some sz) dp dsw) = szM := by
            rw [specDeviceMB_mem, hparse]
            rfl
          rw [hspec]
          split <;> simp

/-- Size-bounded simultaneous induction for the accumulated CXL memory
    total inside switches. -/
theorem cxlTotalAux : ∀ (fuel : Nat),
    (∀ (dev : CxlDevice) (st : CxlState) (bus : String) (st' : CxlState),
      sizeOf dev ≤ fuel → cxlswitchopts st dev bus = .ok st' →
      ∃ l, dev.sw = some l ∧
        st'.totalMemSizeM = st.totalMemSizeM + specListMB l) ∧
    (∀ (devs : List CxlDevice) (st : CxlState) (i : Nat) (u : String)
      (st' : CxlState),
      sizeOf devs ≤ fuel → cxlDownList st devs i u = .ok st' →
      st'.totalMemSizeM = st.totalMemSizeM + specListMB devs) := by
  intro fuel
  induction fuel with
  | zero =>
      constructor
      · intro dev st bus st' hle hp
        cases dev with
        | mk m p sw => simp_arith at hle
      · intro devs st i u st' hle hp
        cases devs with
        | nil => simp_arith at hle
        | cons d rest => simp_arith at hle
  | succ k ih =>
      obtain ⟨ihS, ihL⟩ := ih
      constructor
      · intro dev st bus st' hle hp
        cases dev with
        | mk m p sw =>
          cases sw with
          | none => cases hp
          | some l =>
              refine ⟨l, rfl, ?_⟩
              unfold cxlswitchopts at hp
              dsimp only at hp
              have := ihL l _ 0 _ st' (by simp_arith at hle; omega) hp
              rw [this]
      · intro devs st i u st' hle hp
        cases devs with
        | nil =>
            cases hp
            rw [specListMB_nil]
            ring
        | cons d rest =>
            have hled : sizeOf d ≤ k := by simp_arith at hle; omega
            have hler : sizeOf rest ≤ k := by simp_arith at hle; omega
            have hlstep := specListMB_cons d rest
            cases d with
            | mk dm dp dsw =>
              unfold cxlDownList at hp
              simp only [CxlDevice.mem, CxlDevice.sw] at hp
              cases dm with
              | some sz =>
                  dsimp only at hp
                  split at hp
                  next st2 hmem =>
                    have h1 := cxlmemopts_total _ _ _ st2 hmem
                    have h2 := ihL rest _ _ _ st' hler hp
                    rw [hlstep, h2, h1]
                    simp
                    ring
                  next e herr => cases hp
              | none =>
                  cases dsw with
                  | some l2 =>
                      dsimp only at hp
                      split at hp
                      next st2 hswc =>
                        obtain ⟨l3, hl3, h1⟩ :=
                          ihS (CxlDevice.mk none dp (some l2)) _ _ st2 hled hswc
                        simp only [CxlDevice.sw, Option.some.injEq] at hl3
                        have h2 := ihL rest _ _ _ st' hler hp
                        have hdev := specDeviceMB_switch dp l2
                        rw [hlstep, hdev, h2, h1, ← hl3]
                        simp
                        ring
                      next e herr => cases hp
                  | none =>
                      dsimp only at hp
                      cases hp

/-- A successful switch walk adds exactly the requested size of its
    subtree. -/
theorem cxlswitch_total (dev : CxlDevice) (st : CxlState) (bus : String)
    (st' : CxlState) (hp : cxlswitchopts st dev bus = .ok st') :
    ∃ l, dev.sw = some l ∧
      st'.totalMemSizeM = st.totalMemSizeM + specListMB l :=
  (cxlTotalAux (sizeOf dev)).1 dev st bus st' le_rfl hp

/-- A successful root port walk adds exactly the requested size of its
    port list. -/
theorem cxlRootPorts_total :
    ∀ (ports : List CxlDevice) (st : CxlState) (i : Nat) (hb : String)
      (st' : CxlState), cxlRootPorts st ports i hb = .ok st' →
      st'.totalMemSizeM = st.totalMemSizeM + specListMB ports := by
  intro ports
  induction ports with
  | nil =>
      intro st i hb st' hp
      cases hp
      rw [specListMB_nil]
      ring
  | cons d rest ih =>
      intro st i hb st' hp
      have hlstep := specListMB_cons d rest
      cases d with
      | mk dm dp dsw =>
        unfold cxlRootPorts at hp
        simp only [CxlDevice.mem, CxlDevice.sw] at hp
        cases dm with
        | some sz =>
            dsimp only at hp
            split at hp
            next st2 hmem =>
              have h1 := cxlmemopts_total _ _ _ st2 hmem
              have h2 := ih st2 _ _ st' hp
              rw [hlstep, h2, h1]
              simp
              ring
            next e herr => cases hp
        | none =>
            cases dsw with
            | some l2 =>
                dsimp only at hp
                split at hp
                next st2 hswc =>
                  obtain ⟨l3, hl3, h1⟩ := cxlswitch_total _ _ _ st2 hswc
                  simp only [CxlDevice.sw, Option.some.injEq] at hl3
                  have h2 := ih st2 _ _ st' hp
                  have hdev := specDeviceMB_switch dp l2
                  rw [hlstep, hdev, h2, h1, ← hl3]
                  simp
                  ring
                next e herr => cases hp
            | none =>
                dsimp only at hp
                have h2 := ih _ _ _ st' hp
                have hdev := specDeviceMB_none dp
                rw [hlstep, h2, hdev]
                simp

/-- A successful bridge walk adds exactly the requested size of the
    remaining forest. -/
theorem cxlBridges_total :
    ∀ (bridges : List (List CxlDevice)) (st : CxlState) (i : Nat)
      (targets : List String) (out : CxlState × List String),
      cxlBridges st bridges i targets = .ok out →
      out.1.totalMemSizeM = st.totalMemSizeM + (bridges.map specListMB).sum := by
  intro bridges
  induction bridges with
  | nil =>
      intro st i targets out hp
      cases hp
      simp
  | cons ports rest ih =>
      intro st i targets out hp
      unfold cxlBridges at hp
      dsimp only at hp
      split at hp
      next st2 hports =>
        have h1 := cxlRootPorts_total ports _ 0 _ st2 hports
        have h2 := ih st2 _ _ out hp
        rw [h2, h1]
        simp
        ring
      next e herr => cases hp

/-- C6: when the CXL builder succeeds, the firmware window size (in GiB)
    emitted for each host bridge equals the total requested CXL memory of
    the forest in megabytes rounded up (with Python floor division) to the
    next multiple of 4 GiB. -/
theorem c6_firmware_window (f : List (List CxlDevice))
    (h : isOk (qemucxlopts f) = true) :
    addrSizeOf f = some (((specTotalRequestedMB f + 4095).fdiv 4096) * 4) := by
  obtain ⟨r, hr⟩ := (isOk_iff_exists _).mp h
  unfold addrSizeOf
  rw [hr]
  dsimp only
  congr 1
  unfold qemucxlopts at hr
  split at hr
  · cases hr
  next st targets heq =>
    obtain rfl := Except.ok.inj hr
    dsimp only
    have := cxlBridges_total f _ 0 [] (st, targets) heq
    dsimp only at this
    rw [this]
    unfold specTotalRequestedMB
    norm_num

/-- Forest for the C6 witness: a single 256 MiB device, and a second forest
    totaling 8500 MiB. -/
def c6wForest1 : List (List CxlDevice) := [[.mk (some "256M") none none]]

/-- Second forest for the C6 witness, totaling 8500 MiB. -/
def c6wForest2 : List (List CxlDevice) :=
  [[.mk (some "8G") none none], [.mk (some "308M") none none]]

/-- Witness for C6: the theorem applied to both concrete forests, giving
    the claimed 4 GiB and 12 GiB windows. -/
theorem c6_witness :
    (specTotalRequestedMB c6wForest1 = 256 ∧
     addrSizeOf c6wForest1 = some 4) ∧
    (specTotalRequestedMB c6wForest2 = 8500 ∧
     addrSizeOf c6wForest2 = some 12) := by
  refine ⟨⟨rfl, ?_⟩, ⟨rfl, ?_⟩⟩
  · rw [c6_firmware_window c6wForest1 rfl]
    rfl
  · rw [c6_firmware_window c6wForest2 rfl]
    rfl

/-- Has the ordered pair p been processed when the second pass of dists is
    about to handle source s, destination m (pairs are visited in
    lexicographic order)? -/
abbrev pairDone (s m : Nat) (p : Nat × Nat) : Prop :=
  p.1 < s ∨ (p.1 = s ∧ p.2 < m)

/-- The value the second pass gives an ordered pair when only its first
    visit has happened: the override if present, else the topology
    default. -/
def resolveHalf (ctx : Pass1State) (a b : Nat) : Int :=
  (ovLookup ctx a b).getD (topoDist ctx a b)

/-- The final value of an off-diagonal pair a < b after both visits: the
    later (b, a) override wins, else the (a, b) override, else the
    topology default. -/
def resolveFull (ctx : Pass1State) (a b : Nat) : Int :=
  (ovLookup ctx b a).getD (resolveHalf ctx a b)

/-- The distance dictionary contents at the point where the second pass of
    dists is about to handle source s, destination m. -/
def stateAt (ctx : Pass1State) (N s m : Nat) : DD := fun i j =>
  if i < N ∧ j < N then
    if i = j then
      (if pairDone s m (i, j) then some DEFAULT_DIST_SAME_NODE else none)
    else if i < j then
      (if pairDone s m (j, i) then some (resolveFull ctx i j)
       else if pairDone s m (i, j) then some (resolveHalf ctx i j)
       else none)
    else
      (if pairDone s m (i, j) then some (resolveFull ctx j i)
       else if pairDone s m (j, i) then ovLookup ctx j i
       else none)
  else none

/-- The topology default distance is symmetric in its two nodes. -/
theorem topoDist_symm (ctx : Pass1State) (s d : Nat) :
    topoDist ctx s d = topoDist ctx d s := by
  unfold topoDist
  by_cases h1 : ctx.nodePackageDie s = ctx.nodePackageDie d
  · rw [if_pos h1, if_pos h1.symm]
  · have h1' : ¬ ctx.nodePackageDie d = ctx.nodePackageDie s :=
      fun hh => h1 hh.symm
    rw [if_neg h1, if_neg h1']
    by_cases h2 : (ctx.nodePackageDie s).map Prod.fst =
        (ctx.nodePackageDie d).map Prod.fst
    · rw [if_pos h2, if_pos h2.symm]
    · have h2' : ¬ (ctx.nodePackageDie d).map Prod.fst =
          (ctx.nodePackageDie s).map Prod.fst := fun hh => h2 hh.symm
      rw [if_neg h2, if_neg h2']

/-- A cell untouched by the current visit keeps its stateAt value when the
    cursor advances by one destination. -/
theorem stateAt_untouched (ctx : Pass1State) (N s m i j : Nat)
    (h1 : ¬(i = s ∧ j = m)) (h2 : ¬(j = s ∧ i = m)) :
    stateAt ctx N s (m + 1) i j = stateAt ctx N s m i j := by
  unfold stateAt
  have e1 : pairDone s (m + 1) (i, j) ↔ pairDone s m (i, j) := by
    unfold pairDone
    dsimp only
    omega
  have e2 : pairDone s (m + 1) (j, i) ↔ pairDone s m (j, i) := by
    unfold pairDone
    dsimp only
    omega
  simp only [e1, e2]

/-- The value of the current cell (s, m) just before it is visited. -/
theorem stateAt_cur (ctx : Pass1State) (N s m : Nat) (hs : s < N) (hm : m < N)
    (hne : s ≠ m) :
    stateAt ctx N s m s m = if s < m then none else ovLookup ctx m s := by
  unfold stateAt
  rw [if_pos ⟨hs, hm⟩, if_neg hne]
  by_cases hlt : s < m
  · rw [if_pos hlt, if_pos hlt,
        if_neg (by unfold pairDone; dsimp only; omega),
        if_neg (by unfold pairDone; dsimp only; omega)]
  · rw [if_neg hlt, if_neg hlt,
        if_neg (by unfold pairDone; dsimp only; omega),
        if_pos (by unfold pairDone; dsimp only; omega)]

/-- A write to a cell reads back the written value. -/
theorem ddWrite_hit (dd : DD) (a b : Nat) (v : Int) :
    ddWrite dd a b v a b = some v := by
  unfold ddWrite
  rw [if_pos ⟨rfl, rfl⟩]

/-- A write leaves every other cell unchanged. -/
theorem ddWrite_miss (dd : DD) (a b : Nat) (v : Int) (i j : Nat)
    (h : ¬(i = a ∧ j = b)) : ddWrite dd a b v i j = dd i j := by
  unfold ddWrite
  rw [if_neg h]

/-- One visit of the second pass of dists advances the state description by
    one destination. -/
theorem pass2step_stateAt (ctx : Pass1State) (N s m : Nat) (hs : s < N)
    (hm : m < N) (i j : Nat) :
    pass2step ctx (stateAt ctx N s m) (s, m) i j = stateAt ctx N s (m + 1) i j := by
  unfold pass2step
  dsimp only
  by_cases hd : s = m
  · subst hd
    rw [if_pos rfl]
    by_cases hc : i = s ∧ j = s
    · obtain ⟨rfl, rfl⟩ := hc
      rw [ddWrite_hit]
      unfold stateAt
      rw [if_pos ⟨hs, hs⟩, if_pos rfl,
          if_pos (by unfold pairDone; dsimp only; omega)]
    · rw [ddWrite_miss _ _ _ _ _ _ hc]
      exact (stateAt_untouched ctx N s s i j hc (fun hh => hc ⟨hh.2, hh.1⟩)).symm
  · rw [if_neg hd]
    cases hov : ovLookup ctx s m with
    | some v =>
        dsimp only
        by_cases hc1 : i = m ∧ j = s
        · obtain ⟨he1, he2⟩ := hc1
          rw [he1, he2, ddWrite_hit]
          unfold stateAt
          rw [if_pos ⟨hm, hs⟩, if_neg (show ¬ m = s from fun hh => hd hh.symm)]
          by_cases hlt : m < s
          · rw [if_pos hlt,
                if_pos (show pairDone s (m + 1) (s, m) by
                  unfold pairDone; dsimp only; omega)]
            unfold resolveFull
            rw [hov]
            rfl
          · rw [if_neg hlt,
                if_neg (show ¬ pairDone s (m + 1) (m, s) by
                  unfold pairDone; dsimp only; omega),
                if_pos (show pairDone s (m + 1) (s, m) by
                  unfold pairDone; dsimp only; omega),
                hov]
        · by_cases hc2 : i = s ∧ j = m
          · obtain ⟨he1, he2⟩ := hc2
            rw [he1, he2,
                ddWrite_miss _ _ _ _ _ _ (show ¬ (s = m ∧ m = s) from fun hh => hd hh.1),
                ddWrite_hit]
            unfold stateAt
            rw [if_pos ⟨hs, hm⟩, if_neg hd]
            by_cases hlt : s < m
            · rw [if_pos hlt,
                  if_neg (show ¬ pairDone s (m + 1) (m, s) by
                    unfold pairDone; dsimp only; omega),
                  if_pos (show pairDone s (m + 1) (s, m) by
                    unfold pairDone; dsimp only; omega)]
              unfold resolveHalf
              rw [hov]
              rfl
            · rw [if_neg hlt,
                  if_pos (show pairDone s (m + 1) (s, m) by
                    unfold pairDone; dsimp only; omega)]
              unfold resolveFull
              rw [hov]
              rfl
          · rw [ddWrite_miss _ _ _ _ _ _ hc1, ddWrite_miss _ _ _ _ _ _ hc2]
            exact (stateAt_untouched ctx N s m i j hc2
              (fun hh => hc1 ⟨hh.2, hh.1⟩)).symm
    | none =>
        dsimp only
        rw [stateAt_cur ctx N s m hs hm hd]
        by_cases hlt : s < m
        · rw [if_pos hlt,
              if_neg (show ¬ (Option.isSome (none : Option Int) = true) by simp)]
          by_cases hc2 : i = s ∧ j = m
          · obtain ⟨he1, he2⟩ := hc2
            rw [he1, he2, ddWrite_hit]
            unfold stateAt
            rw [if_pos ⟨hs, hm⟩, if_neg hd, if_pos hlt,
                if_neg (show ¬ pairDone s (m + 1) (m, s) by
                  unfold pairDone; dsimp only; omega),
                if_pos (show pairDone s (m + 1) (s, m) by
                  unfold pairDone; dsimp only; omega)]
            unfold resolveHalf
            rw [hov]
            rfl
          · by_cases hc1 : i = m ∧ j = s
            · obtain ⟨he1, he2⟩ := hc1
              rw [he1, he2,
                  ddWrite_miss _ _ _ _ _ _ (show ¬ (m = s ∧ s = m) from fun hh => hd hh.2)]
              unfold stateAt
              rw [if_pos ⟨hm, hs⟩,
                  if_neg (show ¬ m = s from fun hh => hd hh.symm),
                  if_neg (show ¬ m < s by omega),
                  if_neg (show ¬ pairDone s m (m, s) by
                    unfold pairDone; dsimp only; omega),
                  if_neg (show ¬ pairDone s m (s, m) by
                    unfold pairDone; dsimp only; omega),
                  if_pos ⟨hm, hs⟩,
                  if_neg (show ¬ m = s from fun hh => hd hh.symm),
                  if_neg (show ¬ m < s by omega),
                  if_neg (show ¬ pairDone s (m + 1) (m, s) by
                    unfold pairDone; dsimp only; omega),
                  if_pos (show pairDone s (m + 1) (s, m) by
                    unfold pairDone; dsimp only; omega),
                  hov]
            · rw [ddWrite_miss _ _ _ _ _ _ hc2]
              exact (stateAt_untouched ctx N s m i j hc2
                (fun hh => hc1 ⟨hh.2, hh.1⟩)).symm
        · rw [if_neg hlt]
          have hms : m < s := by omega
          cases hov2 : ovLookup ctx m s with
          | some w =>
              rw [if_pos (show Option.isSome (some w) = true from rfl)]
              by_cases hc2 : i = s ∧ j = m
              · obtain ⟨he1, he2⟩ := hc2
                rw [he1, he2, stateAt_cur ctx N s m hs hm hd, if_neg hlt, hov2]
                unfold stateAt
                rw [if_pos ⟨hs, hm⟩, if_neg hd, if_neg hlt,
                    if_pos (show pairDone s (m + 1) (s, m) by
                      unfold pairDone; dsimp only; omega)]
                unfold resolveFull resolveHalf
                rw [hov, hov2]
                rfl
              · by_cases hc1 : i = m ∧ j = s
                · obtain ⟨he1, he2⟩ := hc1
                  rw [he1, he2]
                  unfold stateAt
                  rw [if_pos ⟨hm, hs⟩,
                      if_neg (show ¬ m = s from fun hh => hd hh.symm),
                      if_pos hms,
                      if_neg (show ¬ pairDone s m (s, m) by
                        unfold pairDone; dsimp only; omega),
                      if_pos (show pairDone s m (m, s) by
                        unfold pairDone; dsimp only; omega),
                      if_pos ⟨hm, hs⟩,
                      if_neg (show ¬ m = s from fun hh => hd hh.symm),
                      if_pos hms,
                      if_pos (show pairDone s (m + 1) (s, m) by
                        unfold pairDone; dsimp only; omega)]
                  unfold resolveFull resolveHalf
                  rw [hov, hov2]
                  rfl
                · exact (stateAt_untouched ctx N s m i j hc2
                    (fun hh => hc1 ⟨hh.2, hh.1⟩)).symm
          | none =>
              rw [if_neg (show ¬ (Option.isSome (none : Option Int) = true) by simp)]
              by_cases hc2 : i = s ∧ j = m
              · obtain ⟨he1, he2⟩ := hc2
                rw [he1, he2, ddWrite_hit]
                unfold stateAt
                rw [if_pos ⟨hs, hm⟩, if_neg hd, if_neg hlt,
                    if_pos (show pairDone s (m + 1) (s, m) by
                      unfold pairDone; dsimp only; omega)]
                unfold resolveFull resolveHalf
                rw [hov, hov2, topoDist_symm ctx s m]
                rfl
              · by_cases hc1 : i = m ∧ j = s
                · obtain ⟨he1, he2⟩ := hc1
                  rw [he1, he2,
                      ddWrite_miss _ _ _ _ _ _ (show ¬ (m = s ∧ s = m) from fun hh => hd hh.2)]
                  unfold stateAt
                  rw [if_pos ⟨hm, hs⟩,
                      if_neg (show ¬ m = s from fun hh => hd hh.symm),
                      if_pos hms,
                      if_neg (show ¬ pairDone s m (s, m) by
                        unfold pairDone; dsimp only; omega),
                      if_pos (show pairDone s m (m, s) by
                        unfold pairDone; dsimp only; omega),
                      if_pos ⟨hm, hs⟩,
                      if_neg (show ¬ m = s from fun hh => hd hh.symm),
                      if_pos hms,
                      if_pos (show pairDone s (m + 1) (s, m) by
                        unfold pairDone; dsimp only; omega)]
                  unfold resolveFull resolveHalf
                  rw [hov, hov2]
                  rfl
                · rw [ddWrite_miss _ _ _ _ _ _ hc2]
                  exact (stateAt_untouched ctx N s m i j hc2
                    (fun hh => hc1 ⟨hh.2, hh.1⟩)).symm

/-- The inner destination loop of the second pass, characterised. -/
theorem pass2_inner (ctx : Pass1State) (N s : Nat) (hs : s < N) :
    ∀ m, m ≤ N →
      (List.range m).foldl (fun dd d => pass2step ctx dd (s, d))
        (stateAt ctx N s 0) = stateAt ctx N s m := by
  intro m
  induction m with
  | zero => intro _; rfl
  | succ k ih =>
      intro hk
      rw [List.range_succ, List.foldl_append, ih (by omega)]
      simp only [List.foldl_cons, List.foldl_nil]
      funext i j
      exact pass2step_stateAt ctx N s k hs (by omega) i j

/-- Before any visit the dictionary is empty. -/
theorem stateAt_zero (ctx : Pass1State) (N : Nat) :
    stateAt ctx N 0 0 = fun _ _ => none := by
  funext i j
  show stateAt ctx N 0 0 i j = none
  unfold stateAt
  have hp : ∀ p : Nat × Nat, ¬ pairDone 0 0 p := by
    intro p
    unfold pairDone
    omega
  by_cases h1 : i < N ∧ j < N
  · rw [if_pos h1]
    by_cases h2 : i = j
    · rw [if_pos h2, if_neg (hp _)]
    · rw [if_neg h2]
      by_cases h3 : i < j
      · rw [if_pos h3, if_neg (hp _), if_neg (hp _)]
      · rw [if_neg h3, if_neg (hp _), if_neg (hp _)]
  · rw [if_neg h1]

/-- Finishing a source row is the same state as starting the next row. -/
theorem stateAt_rowEnd (ctx : Pass1State) (N s : Nat) :
    stateAt ctx N s N = stateAt ctx N (s + 1) 0 := by
  funext i j
  unfold stateAt
  by_cases h1 : i < N ∧ j < N
  · obtain ⟨hi, hj⟩ := h1
    have e1 : pairDone s N (i, j) ↔ pairDone (s + 1) 0 (i, j) := by
      unfold pairDone
      dsimp only
      omega
    have e2 : pairDone s N (j, i) ↔ pairDone (s + 1) 0 (j, i) := by
      unfold pairDone
      dsimp only
      omega
    simp only [e1, e2]
  · rw [if_neg h1, if_neg h1]

/-- The outer source loop of the second pass, characterised. -/
theorem pass2_outer (ctx : Pass1State) (N : Nat) :
    ∀ s, s ≤ N →
      (List.range s).foldl (fun dd s2 =>
        (List.range N).foldl (fun dd d => pass2step ctx dd (s2, d)) dd)
        (fun _ _ => none) = stateAt ctx N s 0 := by
  intro s
  induction s with
  | zero => intro _; exact (stateAt_zero ctx N).symm
  | succ k ih =>
      intro hk
      rw [List.range_succ, List.foldl_append, ih (by omega)]
      simp only [List.foldl_cons, List.foldl_nil]
      rw [pass2_inner ctx N k (by omega) N (le_refl N)]
      exact stateAt_rowEnd ctx N k

/-- Iterating a distMatrix-preserving step preserves distMatrix. -/
theorem natRepeat_distMatrix (f : Pass1State → Pass1State)
    (hf : ∀ st, (f st).distMatrix = st.distMatrix) :
    ∀ (k : Nat) (st : Pass1State), (natRepeat f k st).distMatrix = st.distMatrix := by
  intro k
  induction k with
  | zero => intro st; rfl
  | succ n ih =>
      intro st
      show (natRepeat f n (f st)).distMatrix = st.distMatrix
      rw [ih (f st), hf st]

/-- Folding a distMatrix-preserving step preserves distMatrix. -/
theorem foldl_distMatrix {α : Type} (f : Pass1State → α → Pass1State)
    (hf : ∀ st a, (f st a).distMatrix = st.distMatrix) :
    ∀ (l : List α) (st : Pass1State),
      (l.foldl f st).distMatrix = st.distMatrix := by
  intro l
  induction l with
  | nil => intro st; rfl
  | cons a t ih =>
      intro st
      show ((t.foldl f (f st a))).distMatrix = st.distMatrix
      rw [ih (f st a), hf st a]

/-- A group without a dist-all key leaves the recorded matrix unchanged. -/
theorem pass1Group_distMatrix (st : Pass1State) (spec : NumaSpec)
    (h : spec.distAll = none) :
    (pass1Group st spec).distMatrix = st.distMatrix := by
  have hbody : ∀ st2 : Pass1State,
      ((List.range (spec.dies.getD 1).toNat).foldl (fun st3 die =>
        natRepeat (pass1Node die) (spec.nodes.getD 1).toNat st3)
        (if (spec.nodes.getD 1) > 0 then
          { st2 with lastsocket := st2.lastsocket + 1 } else st2)).distMatrix
      = st2.distMatrix := by
    intro st2
    rw [foldl_distMatrix _ (fun st3 die =>
      natRepeat_distMatrix (pass1Node die) (fun _ => rfl) _ st3)]
    split <;> rfl
  unfold pass1Group
  rw [h]
  cases hnd : spec.nodeDist <;> cases hsp : spec.distSamePackage <;>
    cases hsd : spec.distSameDie <;>
    exact natRepeat_distMatrix _ hbody ((spec.packages.getD 1).toNat) st

/-- The whole second pass equals the closed-form state description. -/
theorem pass2_char (ctx : Pass1State) (N : Nat) :
    pass2 ctx N = stateAt ctx N N 0 := by
  unfold pass2
  exact pass2_outer ctx N N (le_refl N)

/-- After the second pass every node has self-distance 10. -/
theorem pass2_diag (ctx : Pass1State) (N i : Nat) (hi : i < N) :
    pass2 ctx N i i = some DEFAULT_DIST_SAME_NODE := by
  rw [pass2_char]
  unfold stateAt
  rw [if_pos (show i < N ∧ i < N from ⟨hi, hi⟩), if_pos (show i = i from rfl),
      if_pos (show pairDone N 0 (i, i) by unfold pairDone; dsimp only; omega)]

/-- After the second pass the dictionary is symmetric on the node range. -/
theorem pass2_symm (ctx : Pass1State) (N i j : Nat) (hi : i < N) (hj : j < N) :
    pass2 ctx N i j = pass2 ctx N j i := by
  rw [pass2_char]
  unfold stateAt
  by_cases hd : i = j
  · rw [hd]
  · rw [if_pos (show i < N ∧ j < N from ⟨hi, hj⟩),
        if_pos (show j < N ∧ i < N from ⟨hj, hi⟩), if_neg hd]
    rcases Nat.lt_or_ge i j with hlt | hge
    · rw [if_pos hlt,
          if_pos (show pairDone N 0 (j, i) by unfold pairDone; dsimp only; omega),
          if_neg (show ¬ j = i from fun hh => hd hh.symm),
          if_neg (show ¬ j < i by omega),
          if_pos (show pairDone N 0 (j, i) by unfold pairDone; dsimp only; omega)]
    · have hgt : j < i := by omega
      rw [if_neg (show ¬ i < j by omega),
          if_pos (show pairDone N 0 (i, j) by unfold pairDone; dsimp only; omega),
          if_neg (show ¬ j = i from fun hh => hd hh.symm),
          if_pos hgt,
          if_pos (show pairDone N 0 (i, j) by unfold pairDone; dsimp only; omega)]

/-- A list with no dist-all keys leaves the first pass without a matrix. -/
theorem distsPass1_distMatrix_none (nl : List NumaSpec)
    (h : ∀ s ∈ nl, s.distAll = none) :
    (distsPass1 nl).distMatrix = none := by
  unfold distsPass1
  have hgen : ∀ (l : List NumaSpec) (st : Pass1State),
      (∀ s ∈ l, s.distAll = none) →
      (l.foldl pass1Group st).distMatrix = st.distMatrix := by
    intro l
    induction l with
    | nil => intro st _; rfl
    | cons a t ih =>
        intro st hall
        show ((t.foldl pass1Group (pass1Group st a))).distMatrix = st.distMatrix
        rw [ih _ (fun s hs => hall s (List.mem_cons_of_mem a hs)),
            pass1Group_distMatrix st a (hall a (List.mem_cons_self a t))]
  exact hgen nl {} h

/-- When the first pass found no node, dists fails. -/
theorem dists_noNodes (nl : List NumaSpec)
    (h : (distsPass1 nl).lastnodeInGroup < 0) :
    dists nl = .error "no NUMA nodes found" := by
  unfold dists
  dsimp only
  rw [if_pos h]

/-- Without any dist-all key, dists runs the pairwise second pass on the
    counted node range. -/
theorem dists_noMatrix (nl : List NumaSpec)
    (hnd : ∀ s ∈ nl, s.distAll = none)
    (hok : ¬ (distsPass1 nl).lastnodeInGroup < 0) :
    dists nl = .ok ⟨pass2 (distsPass1 nl) (distsPass1 nl).lastnodeInGroup.toNat,
                    (distsPass1 nl).lastnodeInGroup.toNat⟩ := by
  unfold dists
  dsimp only
  rw [if_neg hok, distsPass1_distMatrix_none nl hnd, Int.sub_add_cancel]

/-- C10: for every input without a dist-all matrix on which dists succeeds,
    the built distance dictionary is symmetric: the distance recorded from
    node i to node j always equals the one from j to i. -/
theorem c10_distance_symmetry (nl : List NumaSpec)
    (hnd : ∀ s ∈ nl, s.distAll = none) (h : isOk (dists nl) = true) :
    ∀ i j, distAt (dists nl) i j = distAt (dists nl) j i := by
  intro i j
  have hok : ¬ (distsPass1 nl).lastnodeInGroup < 0 := by
    intro hneg
    rw [dists_noNodes nl hneg] at h
    exact Bool.noConfusion h
  rw [dists_noMatrix nl hnd hok]
  simp only [distAt]
  generalize (distsPass1 nl).lastnodeInGroup.toNat = N
  generalize distsPass1 nl = ctx
  by_cases hi : i < N
  · by_cases hj : j < N
    · exact pass2_symm ctx N i j hi hj
    · rw [pass2_char]
      unfold stateAt
      rw [if_neg (show ¬(i < N ∧ j < N) from fun hh => hj hh.2),
          if_neg (show ¬(j < N ∧ i < N) from fun hh => hj hh.1)]
  · rw [pass2_char]
    unfold stateAt
    rw [if_neg (show ¬(i < N ∧ j < N) from fun hh => hi hh.1),
        if_neg (show ¬(j < N ∧ i < N) from fun hh => hi hh.2)]

/-- Input for the C10 witness: two nodes in one group with a one-sided
    node-dist override. -/
def c10input : List NumaSpec :=
  [{ cores := some 1, mem := some "1G", nodes := some 2,
     nodeDist := some [(1, 77)] }]

/-- C10 witness: on a concrete two-node input the override written for the
    pair (0, 1) is also read back at (1, 0). -/
theorem c10_witness :
    distAt (dists c10input) 0 1 = distAt (dists c10input) 1 0 ∧
    distAt (dists c10input) 0 1 = some 77 :=
  ⟨c10_distance_symmetry c10input (by decide) rfl 0 1, rfl⟩

/-- C3 (amended): on every input that compiles and supplies no dist-all
    matrix, the distance matrix built over the NUMA groups gives every
    compiled node the self-distance 10. -/
theorem c3_self_distance_ten (nl : List NumaSpec)
    (h : isOk (qemuopts nl) = true)
    (hnd : ∀ s ∈ nl, s.distAll = none) :
    ∀ i, i < numDistNodes (nonCxlGroups nl) →
      distAt (dists (nonCxlGroups nl)) i i = some 10 := by
  intro i hi
  have hnd' : ∀ s ∈ nonCxlGroups nl, s.distAll = none :=
    fun s hs => hnd s (List.mem_of_mem_filter hs)
  have hok : ¬ (distsPass1 (nonCxlGroups nl)).lastnodeInGroup < 0 := by
    unfold numDistNodes at hi
    omega
  rw [dists_noMatrix _ hnd' hok]
  simp only [distAt]
  exact pass2_diag _ _ i hi

/-- Input for the C3 witness: a single CPU-bearing node, no dist-all. -/
def c3wInput : List NumaSpec := [{ cores := some 1, mem := some "1G" }]

/-- C3 witness: the concrete one-node input compiles and its only node gets
    self-distance 10. -/
theorem c3_witness :
    0 < numDistNodes (nonCxlGroups c3wInput) ∧
    distAt (dists (nonCxlGroups c3wInput)) 0 0 = some 10 :=
  ⟨by decide, c3_self_distance_ten c3wInput rfl (by decide) 0 (by decide)⟩

end T2Q
